import Mathlib

/-!
Verification of the bup save command, embedded from lib/bup/cmd/save.py.

The embedding models the save_tree per-entry loop body (processEntry), the
directory-stack pop protocol (popFrame, embedding save_tree._pop), the
end-of-stream root close (finishSave), and the --graft option validation
(parseGrafts, embedding opts_from_cmdline).

Paths and names are modelled as String (one Char per byte), byte payloads as
List Nat, and oids as Nat.  External collaborators that are not part of this
repository's src (the object writer, the rolling-hash splitter's cut points,
the filesystem, the metadata store, the hardlink DB and the path mappers) are
abstracted as functions in Env; every call the save code makes to the object
writer is additionally recorded in a write log (wlog) so that claims about
what is or is not written are observable.
-/

/-- Object id.  Real oids are 20-byte hashes; claims only compare them. -/
abbrev Oid := Nat

/-- GIT_MODE_TREE from bup.hashsplit (standard git tree mode 0o40000). -/
def GIT_MODE_TREE : Nat := 0o40000

/-- GIT_MODE_FILE from bup.hashsplit (standard git regular-file mode 0o100644). -/
def GIT_MODE_FILE : Nat := 0o100644

/-- GIT_MODE_SYMLINK from bup.hashsplit (standard git symlink mode 0o120000). -/
def GIT_MODE_SYMLINK : Nat := 0o120000

/-- stat.S_IFMT: the file-type bits of a mode. -/
def S_IFMT (m : Nat) : Nat := m &&& 0o170000

/-- stat.S_ISDIR. -/
def S_ISDIR (m : Nat) : Prop := S_IFMT m = 0o40000

/-- stat.S_ISREG. -/
def S_ISREG (m : Nat) : Prop := S_IFMT m = 0o100000

/-- stat.S_ISLNK. -/
def S_ISLNK (m : Nat) : Prop := S_IFMT m = 0o120000

instance (m : Nat) : Decidable (S_ISDIR m) := by unfold S_ISDIR; infer_instance

instance (m : Nat) : Decidable (S_ISREG m) := by unfold S_ISREG; infer_instance

instance (m : Nat) : Decidable (S_ISLNK m) := by unfold S_ISLNK; infer_instance

/-- os.path.split: split off the part after the last slash; trailing slashes
are stripped from the head unless the head consists only of slashes. -/
def osPathSplit (p : String) : String × String :=
  let cs := p.toList
  let tl := (cs.reverse.takeWhile (fun c => c ≠ '/')).reverse
  let hd := cs.take (cs.length - tl.length)
  let hd := if hd.all (fun c => c = '/') then hd else (hd.reverse.dropWhile (fun c => c = '/')).reverse
  (String.mk hd, String.mk tl)

/-- Lexicographic non-strict byte order, as python compares bytes values. -/
def bytesLe : List Char → List Char → Bool
  | [], _ => true
  | _ :: _, [] => false
  | a :: as, b :: bs => if a < b then true else if b < a then false else bytesLe as bs

/-- Lexicographic strict byte order. -/
def bytesLt : List Char → List Char → Bool
  | [], [] => false
  | [], _ :: _ => true
  | _ :: _, [] => false
  | a :: as, b :: bs => if a < b then true else if b < a then false else bytesLt as bs

/-- Python list comparison on lists of byte strings, specialised to the
strict greater-than used by the save loop's stack/dirp comparison. -/
def namesGt : List String → List String → Bool
  | [], _ => false
  | _ :: _, [] => true
  | a :: as, b :: bs => if a = b then namesGt as bs else bytesLt b.toList a.toList

/-- Metadata record (bup.metadata is not in src; the fields are the ones the
save code reads or writes: the spec section 3 lists owner/permission data,
timestamps, symlink target and the optional hardlink_target and size). -/
structure Metadata where
  mode : Nat := 0
  atime : Int := 0
  mtime : Int := 0
  ctime : Int := 0
  size : Nat := 0
  symlink_target : List Nat := []
  hardlink_target : Option String := none
deriving DecidableEq, Repr

/-- metadata.Metadata(): the empty/default metadata record. -/
def Metadata.empty : Metadata := {}

/-- One child recorded in an open directory frame (bup.tree.StackDir items). -/
structure DirEnt where
  name : String
  mode : Nat
  gitmode : Nat
  oid : Oid
  meta : Option Metadata
deriving DecidableEq, Repr

/-- Modelled from the spec: bup/tree.py is not in src.  Spec section 3
StackFrame: name, meta and the ordered list of children. -/
structure StackDir where
  name : String
  meta : Metadata
  items : List DirEnt := []
deriving DecidableEq, Repr

/-- StackDir.append: record a child in this frame, at the end. -/
def StackDir.append (d : StackDir) (name : String) (mode gitmode : Nat) (oid : Oid)
    (meta : Option Metadata) : StackDir :=
  { d with items := d.items ++ [⟨name, mode, gitmode, oid, meta⟩] }

/-- Modelled from the spec: bup/index.py is not in src.  Spec section 3
IndexEntry, with the EXISTS flag, the hash-valid flag behind is_valid() and
the sha_missing() predicate carried as booleans. -/
structure IndexEntry where
  name : String
  mode : Nat
  gitmode : Nat
  size : Nat
  dev : Nat := 0
  ino : Nat := 0
  nlink : Nat := 1
  atime : Int := 0
  mtime : Int := 0
  ctime : Int := 0
  sha : Oid := 0
  meta_ofs : Nat := 0
  ex : Bool := true
  valid : Bool := false
  shaMissing : Bool := false
deriving DecidableEq, Repr

/-- Modelled from the spec: IndexEntry.validate(mode, oid) records the stored
gitmode and oid in place and marks the entry hash-valid. -/
def IndexEntry.validate (e : IndexEntry) (gitmode : Nat) (oid : Oid) : IndexEntry :=
  { e with gitmode := gitmode, sha := oid, valid := true }

/-- Modelled from the spec: IndexEntry.invalidate() clears the hash-valid flag. -/
def IndexEntry.invalidate (e : IndexEntry) : IndexEntry :=
  { e with valid := false }

/-- One recorded call to the object writer. -/
inductive WCall where
  | blob (data : List Nat)
  | tree (ents : List (Nat × String × Oid))
deriving DecidableEq, Repr

/-- The mutable state of the save_tree loop: the directory stack (bottom
first, top last, as python's list), the root-collision bookkeeping,
lastskip_name, the add_error log, the log of writer calls, and the two
progress counters kept in the _nonlocal dict. -/
structure SaveState where
  stack : List StackDir := []
  firstRoot : Option (String × Option String) := none
  rootCollision : Bool := false
  lastskipName : Option String := none
  errors : List String := []
  wlog : List WCall := []
  count : Nat := 0
  subcount : Nat := 0
deriving DecidableEq, Repr

/-- Result of processing one index entry: the new state, the (possibly
validated or invalidated) entry, and whether ent.repack() was called. -/
structure StepResult where
  st : SaveState
  ent : IndexEntry
  repacked : Bool
deriving DecidableEq, Repr

/-- The environment of external collaborators: the pack writer (new_blob,
new_tree, exists), the rolling-hash cut-point oracle (cut, modelled from the
spec section 4.4 since bup/hashsplit.py is not in src), the metadata encoder
(bup/metadata.py is not in src), the filesystem (metadata.from_path and
regular-file reading, all-or-nothing), the metastore reader, the hardlink DB
(node_paths, None when absent), the --smaller limit (0 when unset) and the
path mapper producing dirp (modelled from the spec section 4.1 since
bup/helpers.py is not in src). -/
structure Env where
  new_blob : List Nat → Oid
  new_tree : List (Nat × String × Oid) → Oid
  objExists : Oid → Bool
  cut : List Nat → List (List Nat)
  encodeMeta : Metadata → List Nat
  meta_from_path : String → Except String Metadata
  read_file : String → Except String (List Nat)
  metadata_at : Nat → Metadata
  node_paths : Option (Nat → Nat → List String)
  smaller : Nat
  dirpOf : String → List (String × Option String)

/-- already_saved(ent): the stored sha when the entry is hash-valid and the
object store has its oid, else None. -/
def already_saved (env : Env) (e : IndexEntry) : Option Oid :=
  if e.valid && env.objExists e.sha then some e.sha else none

/-- find_hardlink_target(hlink_db, ent). -/
def find_hardlink_target (hdb : Option (Nat → Nat → List String)) (e : IndexEntry) :
    Option String :=
  match hdb with
  | none => none
  | some np =>
    if ¬ S_ISDIR e.mode ∧ 1 < e.nlink then
      match np e.dev e.ino with
      | [] => none
      | p :: _ => some p
    else none

/-- Modelled from the spec: hashsplit.split_to_blob_or_tree (bup/hashsplit.py
is not in src).  Spec section 4.4: the cut-point oracle divides the input into
leaf chunks, each passed to makeblob; a single leaf is returned as a
REGULAR_FILE blob, no leaf yields an empty blob, and several leaves are folded
into a tree via maketree, returned with TREE mode.  The callbacks thread a
state so that the save code's stateful make_blob wrapper can be expressed. -/
def split_to_blob_or_tree {σ : Type} (cut : List Nat → List (List Nat))
    (makeblob : σ → List Nat → σ × Oid)
    (maketree : σ → List (Nat × String × Oid) → σ × Oid)
    (s : σ) (input : List Nat) : σ × Nat × Oid :=
  let r := (cut input).foldl (fun acc c =>
    let b := makeblob acc.1 c
    (b.1, acc.2 ++ [b.2])) (s, ([] : List Oid))
  match r.2 with
  | [] =>
    let b := makeblob r.1 []
    (b.1, GIT_MODE_FILE, b.2)
  | [o] => (r.1, GIT_MODE_FILE, o)
  | os =>
    let t := maketree r.1 (os.map (fun o => (GIT_MODE_FILE, "", o)))
    (t.1, GIT_MODE_TREE, t.2)

/-- Modelled from the spec: git.shalist_item_sort_key (bup/git.py is not in
src).  Spec section 4.3: directory-mode entries are compared as if their name
had a trailing slash, all others by the name as-is. -/
def shalist_item_sort_key (mode : Nat) (name : String) : String :=
  if S_ISDIR mode then name ++ "/" else name

/-- Modelled from the spec: git.mangle_name (bup/git.py is not in src).  Spec
section 4.3: when the filesystem mode and the storage mode disagree (a regular
file stored as a chunked tree) the stored name gets a deterministic suffix,
and names that would collide with that suffix get an escaping suffix. -/
def mangle_name (name : String) (mode gitmode : Nat) : String :=
  if S_ISREG mode ∧ gitmode &&& 0o100000 = 0 then name ++ ".bup"
  else if name.endsWith ".bup" ∨ name.endsWith ".bupl" then name ++ ".bupl"
  else name

/-- The add_error message for a duplicate path dropped at pop time. -/
def dupError (parentPath name : String) : String :=
  "error: ignoring duplicate path " ++ name ++ " in " ++ parentPath

/-- The _pop duplicate-elimination loop: walk the items with a seen-name set,
appending fresh items to clean_list and one add_error per duplicate. -/
def dedupGo (pp : String) (seen : List String) (clean : List DirEnt) (errs : List String) :
    List DirEnt → List DirEnt × List String
  | [] => (clean, errs)
  | x :: xs =>
    if x.name ∈ seen then dedupGo pp seen clean (errs ++ [dupError pp x.name]) xs
    else dedupGo pp (seen ++ [x.name]) (clean ++ [x]) errs xs

/-- clean_list and the duplicate errors for one frame's items. -/
def dedupItems (pp : String) (items : List DirEnt) : List DirEnt × List String :=
  dedupGo pp [] [] [] items

/-- Sidecar sort key comparison: python's stable list.sort on the bytes key. -/
def keyLe (a b : String × Option Metadata) : Bool :=
  bytesLe a.1.toList b.1.toList

/-- The sorted metalist of _pop: the directory's own record with empty key
first in insertion order, then one record per clean_list entry whose recorded
mode is not GIT_MODE_TREE, keyed by shalist_item_sort_key of the entry's mode
and name, stably sorted by key. -/
def metaRecords (dirMeta : Metadata) (clean : List DirEnt) : List (String × Option Metadata) :=
  (("", some dirMeta) ::
    (clean.filter (fun e => e.mode ≠ GIT_MODE_TREE)).map
      (fun e => (shalist_item_sort_key e.mode e.name, e.meta))).mergeSort keyLe

/-- The concatenated encoded sidecar stream for the sorted records. -/
def sidecarBytes (env : Env) (records : List (String × Option Metadata)) : List Nat :=
  (records.map (fun r => env.encodeMeta (r.2.getD Metadata.empty))).flatten

/-- Hashsplit the sidecar stream, recording the writer calls made. -/
def sidecarSplit (env : Env) (records : List (String × Option Metadata)) :
    List WCall × Nat × Oid :=
  split_to_blob_or_tree env.cut
    (fun tr d => (tr ++ [WCall.blob d], env.new_blob d))
    (fun tr es => (tr ++ [WCall.tree es], env.new_tree es))
    [] (sidecarBytes env records)

/-- The hashsplit call of the regular-file store path: the make_blob wrapper
threads (accumulated size, writer-call log) through the splitter, mirroring
the closure over meta.size in save.py lines 419-421. -/
def regSplit (env : Env) (content : List Nat) : (Nat × List WCall) × Nat × Oid :=
  split_to_blob_or_tree env.cut
    (fun s d => ((s.1 + d.length, s.2 ++ [WCall.blob d]), env.new_blob d))
    (fun s es => ((s.1, s.2 ++ [WCall.tree es]), env.new_tree es))
    ((0 : Nat), ([] : List WCall)) content

/-- The tree entry list of _pop: the .bupm sidecar entry first, then one entry
per clean_list element with its gitmode, mangled name and oid. -/
def mkShalist (scMode : Nat) (scOid : Oid) (clean : List DirEnt) :
    List (Nat × String × Oid) :=
  (scMode, ".bupm", scOid) ::
    clean.map (fun e => (e.gitmode, mangle_name e.name e.mode e.gitmode, e.oid))

/-- The tree-building half of _pop (the force_tree=None case): dedup the
items, build and hashsplit the sidecar, emit the tree.  Returns the tree oid,
the duplicate errors and the writer calls made. -/
def buildTree (env : Env) (parents : List String) (item : StackDir)
    (dir_metadata : Option Metadata) : Oid × List String × List WCall :=
  let pp := String.intercalate "/" parents ++ "/"
  let dc := dedupItems pp item.items
  let dirMeta := dir_metadata.getD item.meta
  let records := metaRecords dirMeta dc.1
  let s := sidecarSplit env records
  let shalist := mkShalist s.2.1 s.2.2 dc.1
  (env.new_tree shalist, dc.2, s.1 ++ [WCall.tree shalist])

/-- stack[-1].append(...): append a child to the top frame.  The `if stack:`
guard mirrors _pop's parent append; the per-entry append sites always run with
a nonempty stack (the descent loop pushes at least the root frame). -/
def appendToTop (stack : List StackDir) (name : String) (mode gitmode : Nat) (oid : Oid)
    (meta : Option Metadata) : List StackDir :=
  match stack.getLast? with
  | none => stack
  | some top => stack.dropLast ++ [top.append name mode gitmode oid meta]

/-- save_tree._pop(force_tree, dir_metadata): close the top frame.  With
force_tree the given oid is emitted and nothing is built; otherwise the tree
is built from the deduplicated items and the sidecar.  Either way the closed
directory is appended to the parent frame when one exists.  (The source never
pops an empty stack; that case returns the state unchanged.) -/
def popFrame (env : Env) (st : SaveState) (force_tree : Option Oid)
    (dir_metadata : Option Metadata) : SaveState × Oid :=
  match st.stack.getLast? with
  | none => (st, 0)
  | some item =>
    let rest := st.stack.dropLast
    match force_tree with
    | some tree =>
      ({ st with stack := appendToTop rest item.name GIT_MODE_TREE GIT_MODE_TREE tree none },
       tree)
    | none =>
      let b := buildTree env (rest.map (fun x => x.name)) item dir_metadata
      ({ st with
          stack := appendToTop rest item.name GIT_MODE_TREE GIT_MODE_TREE b.1 none,
          errors := st.errors ++ b.2.1,
          wlog := st.wlog ++ b.2.2 },
       b.1)

/-- The descent comparison loop of save_tree: while the stack's archive names
are python-greater than the dirp names, pop.  Terminates because each pop
shortens the stack and the guard fails on an empty stack. -/
def popWhileGt (env : Env) (st : SaveState) (names : List String) : SaveState :=
  if h : namesGt (st.stack.map (fun x => x.name)) names = true then
    popWhileGt env (popFrame env st none none).1 names
  else st
termination_by st.stack.length
decreasing_by
  have hne : st.stack ≠ [] := by
    intro hnil
    rw [hnil] at h
    simp [namesGt] at h
  have hlen : ∀ (l : List StackDir) (_ : l ≠ []) (n : String) (m g : Nat) (o : Oid)
      (mt : Option Metadata), (appendToTop l n m g o mt).length = l.length := by
    intro l hl n m g o mt
    unfold appendToTop
    cases hgl : l.getLast? with
    | none => rfl
    | some t =>
      simp only [List.length_append, List.length_dropLast, List.length_singleton]
      have : 0 < l.length := List.length_pos.mpr hl
      omega
  cases hgl : st.stack.getLast? with
  | none =>
    cases hs : st.stack with
    | nil => exact absurd hs hne
    | cons x xs => rw [hs] at hgl; simp at hgl
  | some item =>
    simp only [popFrame, hgl]
    have h0 : 0 < st.stack.length := List.length_pos.mpr hne
    by_cases hdl : st.stack.dropLast = []
    · simp [appendToTop, hdl]
      omega
    · rw [hlen _ hdl]
      have := List.length_dropLast st.stack
      omega

/-- The root-collision bookkeeping of save_tree: remember the first dirp's
first component; a later dirp whose first component differs sets the flag.
(The source indexes dirp[0]; path mappers never return an empty dirp, so the
empty case is unreachable and leaves the state unchanged.) -/
def updateRoots (st : SaveState) (dirp : List (String × Option String)) : SaveState :=
  match st.firstRoot, dirp.head? with
  | none, some c => { st with firstRoot := some c }
  | some r, some c => if c ≠ r then { st with rootCollision := true } else st
  | _, none => st

/-- The descent loop of save_tree: push a frame per remaining dirp component,
reading its metadata from the filesystem when the component has a real
fs_path, an empty Metadata otherwise; a stat failure logs the error, marks
lastskip_name with the component name and pushes an empty Metadata. -/
def pushComponents (env : Env) (st : SaveState) (comps : List (String × Option String)) :
    SaveState :=
  comps.foldl (fun st c =>
    match c.2 with
    | some p =>
      match env.meta_from_path p with
      | .ok m => { st with stack := st.stack ++ [⟨c.1, m, []⟩] }
      | .error e =>
        { st with errors := st.errors ++ [e], lastskipName := some c.1,
                  stack := st.stack ++ [⟨c.1, Metadata.empty, []⟩] }
    | none => { st with stack := st.stack ++ [⟨c.1, Metadata.empty, []⟩] }) st

/-- The progress bookkeeping at the end of an entry: if exists and wasmissing,
add the entry's indexed size to count, and (on the non-directory path) reset
subcount. -/
def bumpCount (st : SaveState) (ent : IndexEntry) (resetSub : Bool) : SaveState :=
  if ent.ex && ent.shaMissing then
    { st with count := st.count + ent.size, subcount := if resetSub then 0 else st.subcount }
  else st

/-- The directory-close / hash-valid-reuse / stat-and-store tail of the
save_tree loop body (save.py lines 360 to 447), acting on the stack already
aligned with dirp. -/
def handleEntry (env : Env) (st3 : SaveState) (ent : IndexEntry) (file : String) :
    StepResult :=
  let hashvalid := already_saved env ent
  if file = "" then
      if st3.stack.length = 1 then ⟨st3, ent, false⟩
      else
        let oldtree := already_saved env ent
        let pr := popFrame env st3 oldtree none
        match oldtree with
        | some _ => ⟨bumpCount pr.1 ent false, ent, false⟩
        | none =>
          let skipped := match st3.lastskipName with
            | some n => decide (n ≠ "") && n.startsWith ent.name
            | none => false
          let ent2 := if skipped then ent.invalidate else ent.validate GIT_MODE_TREE pr.2
          ⟨bumpCount pr.1 ent false, ent2, true⟩
    else
      match hashvalid with
      | some _ =>
        let meta0 := env.metadata_at ent.meta_ofs
        let meta := { meta0 with
          hardlink_target := find_hardlink_target env.node_paths ent,
          atime := ent.atime, mtime := ent.mtime, ctime := ent.ctime }
        let st4 := { st3 with
          stack := appendToTop st3.stack file ent.mode ent.gitmode ent.sha (some meta) }
        ⟨bumpCount st4 ent true, ent, false⟩
      | none =>
        let hlink := find_hardlink_target env.node_paths ent
        match env.meta_from_path ent.name with
        | .error emsg =>
          ⟨{ st3 with errors := st3.errors ++ [emsg], lastskipName := some ent.name },
           ent, false⟩
        | .ok meta1 =>
          let meta := { meta1 with hardlink_target := hlink }
          if S_IFMT ent.mode ≠ S_IFMT meta.mode then
            ⟨{ st3 with
                errors := st3.errors ++ [ent.name ++ ": mode changed since indexing, skipping."],
                lastskipName := some ent.name },
             ent, false⟩
          else if S_ISREG ent.mode then
            match env.read_file ent.name with
            | .error emsg =>
              ⟨bumpCount { st3 with errors := st3.errors ++ [ent.name ++ ": " ++ emsg],
                                    lastskipName := some ent.name } ent true,
               ent, false⟩
            | .ok content =>
              let sres := regSplit env content
              let meta2 := { meta with size := sres.1.1 }
              let ent2 := ent.validate sres.2.1 sres.2.2
              let st4 := { st3 with
                wlog := st3.wlog ++ sres.1.2,
                stack := appendToTop st3.stack file ent2.mode ent2.gitmode sres.2.2 (some meta2) }
              ⟨bumpCount st4 ent true, ent2, true⟩
          else if S_ISDIR ent.mode then
            -- assert(0) in the source: a directory path always ends in a
            -- slash, so this branch is unreachable for well-formed indexes.
            ⟨st3, ent, false⟩
          else if S_ISLNK ent.mode then
            let id := env.new_blob meta.symlink_target
            let ent2 := ent.validate GIT_MODE_SYMLINK id
            let st4 := { st3 with
              wlog := st3.wlog ++ [WCall.blob meta.symlink_target],
              stack := appendToTop st3.stack file ent2.mode ent2.gitmode id (some meta) }
            ⟨bumpCount st4 ent true, ent2, true⟩
          else
            let id := env.new_blob []
            let ent2 := ent.validate GIT_MODE_FILE id
            let st4 := { st3 with
              wlog := st3.wlog ++ [WCall.blob []],
              stack := appendToTop st3.stack file ent2.mode ent2.gitmode id (some meta) }
            ⟨bumpCount st4 ent true, ent2, true⟩

/-- The body of the save_tree per-entry loop (lines 278 to 447 of save.py,
verbose/progress logging aside): split the path, classify the entry (missing,
size-limited, or to handle), keep the stack aligned with dirp via the
pop-while and push loops, and hand over to handleEntry.  Returns the new
state, the entry after any in-place validate/invalidate, and whether
ent.repack() was called. -/
def processEntry (env : Env) (st0 : SaveState) (ent : IndexEntry) : StepResult :=
  let dir := (osPathSplit ent.name).1
  let file := (osPathSplit ent.name).2
  let hashvalid := already_saved env ent
  if ent.ex = false then ⟨st0, ent, false⟩
  else if env.smaller ≠ 0 ∧ env.smaller ≤ ent.size then
    if hashvalid = none then ⟨{ st0 with lastskipName := some ent.name }, ent, false⟩
    else ⟨st0, ent, false⟩
  else
    let dirp := env.dirpOf dir
    let st1 := updateRoots st0 dirp
    let st2 := popWhileGt env st1 (dirp.map (fun c => c.1))
    let st3 := pushComponents env st2 (dirp.drop st2.stack.length)
    handleEntry env st3 ent file

/-- The end-of-stream loop of save_tree: pop all parts above the root. -/
def popToRoot (env : Env) (st : SaveState) : SaveState :=
  if h : 1 < st.stack.length then popToRoot env (popFrame env st none none).1 else st
termination_by st.stack.length
decreasing_by
  have hne : st.stack ≠ [] := by
    intro hnil
    rw [hnil] at h
    simp at h
  have hlen : ∀ (l : List StackDir) (_ : l ≠ []) (n : String) (m g : Nat) (o : Oid)
      (mt : Option Metadata), (appendToTop l n m g o mt).length = l.length := by
    intro l hl n m g o mt
    unfold appendToTop
    cases hgl : l.getLast? with
    | none => rfl
    | some t =>
      simp only [List.length_append, List.length_dropLast, List.length_singleton]
      have : 0 < l.length := List.length_pos.mpr hl
      omega
  cases hgl : st.stack.getLast? with
  | none =>
    cases hs : st.stack with
    | nil => exact absurd hs hne
    | cons x xs => rw [hs] at hgl; simp at hgl
  | some item =>
    simp only [popFrame, hgl]
    have h0 : 0 < st.stack.length := List.length_pos.mpr hne
    by_cases hdl : st.stack.dropLast = []
    · simp [appendToTop, hdl]
      omega
    · rw [hlen _ hdl]
      have := List.length_dropLast st.stack
      omega

/-- The final lines of save_tree: pop everything above the root, then close
the root with an empty Metadata override iff a root collision was detected. -/
def finishSave (env : Env) (st : SaveState) : SaveState × Oid :=
  let st1 := popToRoot env st
  popFrame env st1 none (if st1.rootCollision then some Metadata.empty else none)

/-- Python bytes.split on a single '=' separator, as used by the --graft
parser: empty input yields one empty part, and each '=' starts a new part. -/
def splitEq : List Char → List (List Char)
  | [] => [[]]
  | c :: cs =>
    if c = '=' then [] :: splitEq cs
    else
      match splitEq cs with
      | [] => [[c]]
      | p :: ps => (c :: p) :: ps

/-- The inner --graft validation loop of opts_from_cmdline (save.py lines
90-100): each --graft flag value is split on '='; anything but exactly two
non-empty parts is fatal (modelled as Except.error), otherwise the resolved
pair is accepted.  resolve_parent is external (bup/helpers.py is not in src)
and is passed in abstractly. -/
def parseGraftsGo (resolve_parent : List Char → List Char)
    (acc : List (List Char × List Char)) :
    List (String × List Char) → Except String (List (List Char × List Char))
  | [] => .ok acc
  | (o, p) :: rest =>
    if o = "--graft" then
      match splitEq p with
      | [old_path, new_path] =>
        if old_path = [] ∨ new_path = [] then .error "a graft point cannot be empty"
        else
          parseGraftsGo resolve_parent
            (acc ++ [(resolve_parent old_path, resolve_parent new_path)]) rest
      | _ => .error "a graft point must be of the form old_path=new_path"
    else parseGraftsGo resolve_parent acc rest

/-- Python truthiness of opt.graft: None (flag absent) and an empty bytes
value are falsy. -/
def graftOptTruthy : Option (List Char) → Bool
  | none => false
  | some [] => false
  | some (_ :: _) => true

/-- Modelled from the spec: lib/bup/options.py is not in src.  For a
repeatable valued flag the parser leaves the LAST given value in opt.graft,
or None when the flag never occurred. -/
def lastGraftValue (flags : List (String × List Char)) : Option (List Char) :=
  ((flags.filter (fun f => f.1 = "--graft")).map (fun f => f.2)).getLast?

/-- The graft block of opts_from_cmdline (save.py lines 82-101): grafts starts
empty and the validation loop over the flags runs only under the
`if opt.graft:` truthiness guard at line 83, so a falsy opt.graft (absent, or
last value empty) skips validation entirely and leaves opt.grafts = []. -/
def parseGrafts (resolve_parent : List Char → List Char)
    (flags : List (String × List Char)) : Except String (List (List Char × List Char)) :=
  if graftOptTruthy (lastGraftValue flags) then parseGraftsGo resolve_parent [] flags
  else .ok []

/-- First-occurrence-wins duplicate elimination, as the spec sentence states
it: keep each item and drop every later item with the same name. -/
def keepFirst : List DirEnt → List DirEnt
  | [] => []
  | x :: xs => x :: keepFirst (xs.filter (fun y => y.name ≠ x.name))
termination_by l => l.length
decreasing_by
  simp only [List.length_cons]
  exact Nat.lt_succ_of_le (List.length_filter_le _ _)

/-- Duplicate elimination relative to an already-seen name set; keepFirst is
the seen-nothing instance.  Used to characterise the dedupGo loop. -/
def keptAfter (seen : List String) : List DirEnt → List DirEnt
  | [] => []
  | x :: xs =>
    if x.name ∈ seen then keptAfter seen xs
    else x :: keptAfter (seen ++ [x.name]) xs

/-- The duplicate errors emitted relative to an already-seen name set. -/
def dropsAfter (pp : String) (seen : List String) : List DirEnt → List String
  | [] => []
  | x :: xs =>
    if x.name ∈ seen then dupError pp x.name :: dropsAfter pp seen xs
    else dropsAfter pp (seen ++ [x.name]) xs

/-- The sidecar record list as claim C4 words it: entries whose GITMODE is
TREE are the ones excluded.  (The source excludes on the recorded fs mode
instead; compare metaRecords.) -/
def metaRecordsClaim (dirMeta : Metadata) (clean : List DirEnt) :
    List (String × Option Metadata) :=
  (("", some dirMeta) ::
    (clean.filter (fun e => e.gitmode ≠ GIT_MODE_TREE)).map
      (fun e => (shalist_item_sort_key e.mode e.name, e.meta))).mergeSort keyLe

/-- A --graft flag value that claim C10 says must be fatal: not exactly one
'=', or an empty old or new path. -/
def graftBad (p : List Char) : Prop :=
  p.count '=' ≠ 1 ∨ ∃ a b, splitEq p = [a, b] ∧ (a = [] ∨ b = [])

/-- Total length of the data of the blob calls in a writer-call log. -/
def blobBytes (tr : List WCall) : Nat :=
  (tr.filterMap (fun c => match c with | WCall.blob d => some d.length | _ => none)).sum

/-- A simple concrete environment for witnesses: deterministic writer,
single-chunk cut oracle, size-only metadata encoding. -/
def env0 : Env where
  new_blob := fun d => d.length + 1
  new_tree := fun es => es.length + 100
  objExists := fun _ => true
  cut := fun bs => if bs = [] then [] else [bs]
  encodeMeta := fun m => [m.size]
  meta_from_path := fun _ => .ok {}
  read_file := fun _ => .ok [1, 2, 3]
  metadata_at := fun _ => {}
  node_paths := none
  smaller := 0
  dirpOf := fun _ => [("", none)]

/-- Fixture: a frame whose items contain a duplicated name. -/
def itemsC1 : List DirEnt :=
  [⟨"a", 33188, 33188, 1, some {}⟩, ⟨"b", 33188, 33188, 2, some {}⟩,
   ⟨"a", 41471, 40960, 3, some {}⟩]

/-- Fixture: the duplicated frame on a stack below a root frame. -/
def stC1 : SaveState :=
  { stack := [⟨"", Metadata.empty, []⟩, ⟨"d", Metadata.empty, itemsC1⟩] }

/-- Fixture: environment with a 1024-byte --smaller limit. -/
def envC2 : Env := { env0 with smaller := 1024 }

/-- Fixture: a hash-valid 2048-byte regular file entry. -/
def entC2 : IndexEntry :=
  { name := "/a/big", mode := 33188, gitmode := 33188, size := 2048,
    valid := true, sha := 42 }

/-- Fixture: the same large entry, not hash-valid. -/
def entC2w : IndexEntry := { entC2 with valid := false }

/-- Fixture: a single-frame stack. -/
def stC2 : SaveState := { stack := [⟨"", Metadata.empty, []⟩] }

/-- Fixture: environment mapping every directory to the archive path /a. -/
def envC3 : Env := { env0 with dirpOf := fun _ => [("", none), ("a", none)] }

/-- Fixture: a directory index entry for /a/, not hash-valid. -/
def entC3 : IndexEntry :=
  { name := "/a/", mode := 16877, gitmode := GIT_MODE_TREE, size := 0, valid := false }

/-- Fixture: the same directory entry, hash-valid with stored tree 7. -/
def entC3v : IndexEntry := { entC3 with valid := true, sha := 7 }

/-- Fixture: a stack aligned with the /a dirp, root plus one subdirectory. -/
def stC3 : SaveState :=
  { stack := [⟨"", Metadata.empty, []⟩, ⟨"a", Metadata.empty, []⟩] }

/-- Fixture: a clean list holding a reused chunked file: regular fs mode but
gitmode TREE. -/
def cleanC4 : List DirEnt := [⟨"a", 33188, GIT_MODE_TREE, 5, some { size := 7 }⟩]

/-- Fixture: a frame holding the chunked-file child. -/
def stC4 : SaveState :=
  { stack := [⟨"", Metadata.empty, []⟩, ⟨"d", Metadata.empty, cleanC4⟩] }

/-- Fixture: environment for the hash-valid reuse path, with a metastore
record and a hardlink DB. -/
def envC5 : Env :=
  { env0 with
    dirpOf := fun _ => [("", none), ("a", none)],
    metadata_at := fun _ => { size := 55 },
    node_paths := some (fun _ _ => ["/first"]) }

/-- Fixture: a hash-valid regular file entry with two links. -/
def entC5 : IndexEntry :=
  { name := "/a/f", mode := 33188, gitmode := 33188, size := 5, dev := 1, ino := 2,
    nlink := 2, atime := 11, mtime := 12, ctime := 13, sha := 9, meta_ofs := 3,
    valid := true }

/-- Fixture: a stack aligned with the /a dirp for the file claims. -/
def stC5 : SaveState :=
  { stack := [⟨"", Metadata.empty, []⟩, ⟨"a", Metadata.empty, []⟩] }

/-- Fixture: environment whose fresh stat returns a fifo mode. -/
def envC6 : Env :=
  { env0 with
    dirpOf := fun _ => [("", none), ("a", none)],
    meta_from_path := fun _ => .ok { mode := 4516 } }

/-- Fixture: a non-hash-valid regular file entry whose type drifted. -/
def entC6 : IndexEntry :=
  { name := "/a/f", mode := 33188, gitmode := 33188, size := 5, valid := false }

/-- Fixture: a stack aligned with the /a dirp. -/
def stC6 : SaveState :=
  { stack := [⟨"", Metadata.empty, []⟩, ⟨"a", Metadata.empty, []⟩] }

/-- Fixture: environment for the stat-and-store path: a two-chunk cut oracle
and a stat size (999) that disagrees with the 5 bytes actually read. -/
def envC7 : Env :=
  { env0 with
    dirpOf := fun _ => [("", none), ("a", none)],
    cut := fun bs => [bs.take 2, bs.drop 2],
    read_file := fun _ => .ok [1, 2, 3, 4, 5],
    meta_from_path := fun _ => .ok { mode := 33188, size := 999 } }

/-- Fixture: a non-hash-valid regular file entry of indexed size 999. -/
def entC7 : IndexEntry :=
  { name := "/a/f", mode := 33188, gitmode := 33188, size := 999, valid := false }

/-- Fixture: a stack aligned with the /a dirp. -/
def stC7 : SaveState :=
  { stack := [⟨"", Metadata.empty, []⟩, ⟨"a", Metadata.empty, []⟩] }

/-- Fixture: a state that already remembers a first root x. -/
def stC8 : SaveState :=
  { stack := [⟨"", Metadata.empty, []⟩], firstRoot := some ("x", none) }

/-- Fixture: a root-only state with the collision flag set. -/
def stC8f : SaveState :=
  { stack := [⟨"", { size := 33 }, [⟨"a", 33188, 33188, 1, some { size := 7 }⟩]⟩],
    rootCollision := true }

/-- Fixture: the same root-only state without a collision. -/
def stC8n : SaveState := { stC8f with rootCollision := false }

/-- Fixture: environment whose regular-file read fails. -/
def envC9 : Env :=
  { envC7 with read_file := fun _ => .error "read failed" }

/-- Fixture: a non-hash-valid symlink entry. -/
def entC9l : IndexEntry :=
  { name := "/a/ln", mode := 41471, gitmode := 40960, size := 6, valid := false }

/-- Fixture: environment whose fresh stat returns a symlink metadata. -/
def envC9l : Env :=
  { env0 with
    dirpOf := fun _ => [("", none), ("a", none)],
    meta_from_path := fun _ => .ok { mode := 41471, symlink_target := [116, 103, 116] } }

-- ===================== theorems =====================

theorem updateRoots_stack (st : SaveState) (d : List (String × Option String)) :
    (updateRoots st d).stack = st.stack := by
  unfold updateRoots
  split
  · rfl
  · split <;> rfl
  · rfl

theorem updateRoots_errors (st : SaveState) (d : List (String × Option String)) :
    (updateRoots st d).errors = st.errors := by
  unfold updateRoots
  split
  · rfl
  · split <;> rfl
  · rfl

theorem updateRoots_wlog (st : SaveState) (d : List (String × Option String)) :
    (updateRoots st d).wlog = st.wlog := by
  unfold updateRoots
  split
  · rfl
  · split <;> rfl
  · rfl

theorem updateRoots_lastskip (st : SaveState) (d : List (String × Option String)) :
    (updateRoots st d).lastskipName = st.lastskipName := by
  unfold updateRoots
  split
  · rfl
  · split <;> rfl
  · rfl

theorem popWhileGt_id (env : Env) (st : SaveState) (names : List String)
    (h : namesGt (st.stack.map (fun x => x.name)) names = false) :
    popWhileGt env st names = st := by
  unfold popWhileGt
  simp [h]

theorem pushComponents_nil (env : Env) (st : SaveState) :
    pushComponents env st [] = st := rfl

theorem appendToTop_concat (l : List StackDir) (t : StackDir) (n : String) (m g : Nat)
    (o : Oid) (mt : Option Metadata) :
    appendToTop (l ++ [t]) n m g o mt = l ++ [t.append n m g o mt] := by
  unfold appendToTop
  simp [List.getLast?_concat, List.dropLast_concat]

/-- Claim C2 (amended): when a size limit is configured, every existing entry
with size at or above the limit is skipped outright, hash-valid or not: the
entry is not appended to any frame and nothing is written; lastskip_name is
set to the entry's name exactly when the entry is not hash-valid. -/
theorem C2_smaller_skips (env : Env) (st : SaveState) (ent : IndexEntry)
    (hex : ent.ex = true) (h1 : env.smaller ≠ 0) (h2 : env.smaller ≤ ent.size) :
    processEntry env st ent =
      if already_saved env ent = none
      then ⟨{ st with lastskipName := some ent.name }, ent, false⟩
      else ⟨st, ent, false⟩ := by
  unfold processEntry
  simp [hex, h1, h2]

/-- Claim C2 witness: a 2048-byte not-hash-valid entry under --smaller 1024 is
skipped with lastskip_name set. -/
theorem C2_smaller_skips_witness :
    processEntry envC2 stC2 entC2w =
      ⟨{ stC2 with lastskipName := some "/a/big" }, entC2w, false⟩ := by
  have h := C2_smaller_skips envC2 stC2 entC2w rfl (by decide) (by decide)
  rw [h]
  rfl

/-- Claim C2 counterexample: a hash-valid 2048-byte entry under --smaller 1024
is NOT re-emitted into its parent tree: processing it leaves the state (and in
particular the parent frame's items) unchanged, contradicting the claim that
it is still appended to its parent frame. -/
theorem C2_counterexample :
    entC2.ex = true ∧ already_saved envC2 entC2 = some 42 ∧
    envC2.smaller = 1024 ∧ entC2.size = 2048 ∧
    processEntry envC2 stC2 entC2 = ⟨stC2, entC2, false⟩ := by
  refine ⟨rfl, rfl, rfl, rfl, ?_⟩
  rfl

theorem splitEq_ne_nil (cs : List Char) : splitEq cs ≠ [] := by
  induction cs with
  | nil => simp [splitEq]
  | cons c cs ih =>
    by_cases hc : c = '='
    · simp [splitEq, hc]
    · simp only [splitEq, hc, if_false]
      cases h : splitEq cs <;> simp

theorem splitEq_length (cs : List Char) : (splitEq cs).length = cs.count '=' + 1 := by
  induction cs with
  | nil => rfl
  | cons c cs ih =>
    by_cases hc : c = '='
    · subst hc
      simp [splitEq, List.count_cons, ih]
    · cases h : splitEq cs with
      | nil => exact absurd h (splitEq_ne_nil cs)
      | cons p ps =>
        rw [h] at ih
        simp only [splitEq, hc, if_false, h, List.length_cons, List.count_cons] at ih ⊢
        simp [hc]
        omega

theorem parseGraftsGo_error_iff (rp : List Char → List Char)
    (flags : List (String × List Char)) :
    ∀ acc, (∃ f ∈ flags, f.1 = "--graft" ∧ graftBad f.2) ↔
      ∃ msg, parseGraftsGo rp acc flags = .error msg := by
  induction flags with
  | nil => intro acc; simp [parseGraftsGo]
  | cons f rest ih =>
    intro acc
    obtain ⟨o, p⟩ := f
    by_cases ho : o = "--graft"
    · subst ho
      rcases hsp : splitEq p with _ | ⟨a, tl⟩
      · exact absurd hsp (splitEq_ne_nil p)
      · have hcount : p.count '=' + 1 = (splitEq p).length := (splitEq_length p).symm
        rcases tl with _ | ⟨b, tl2⟩
        · constructor
          · intro _
            exact ⟨"a graft point must be of the form old_path=new_path",
              by simp [parseGraftsGo, hsp]⟩
          · intro _
            refine ⟨("--graft", p), by simp, rfl, Or.inl ?_⟩
            rw [hsp] at hcount
            simp at hcount
            show p.count '=' ≠ 1
            omega
        · rcases tl2 with _ | ⟨c, tl3⟩
          · by_cases hab : a = [] ∨ b = []
            · constructor
              · intro _
                exact ⟨"a graft point cannot be empty",
                  by simp [parseGraftsGo, hsp, hab]⟩
              · intro _
                exact ⟨("--graft", p), by simp, rfl, Or.inr ⟨a, b, hsp, hab⟩⟩
            · have heq : parseGraftsGo rp acc (("--graft", p) :: rest) =
                  parseGraftsGo rp (acc ++ [(rp a, rp b)]) rest := by
                simp [parseGraftsGo, hsp, hab]
              rw [heq, ← ih (acc ++ [(rp a, rp b)])]
              constructor
              · rintro ⟨g, hg, hgn, hbad⟩
                rcases List.mem_cons.mp hg with rfl | hg'
                · exfalso
                  rcases hbad with hc1 | ⟨a', b', hsp', hor⟩
                  · rw [hsp] at hcount
                    simp at hcount
                    have : p.count '=' = 1 := by omega
                    exact hc1 this
                  · rw [hsp] at hsp'
                    simp only [List.cons.injEq, and_true] at hsp'
                    obtain ⟨rfl, rfl⟩ := hsp'
                    exact hab hor
                · exact ⟨g, hg', hgn, hbad⟩
              · rintro ⟨g, hg, hgn, hbad⟩
                exact ⟨g, List.mem_cons_of_mem _ hg, hgn, hbad⟩
          · constructor
            · intro _
              exact ⟨"a graft point must be of the form old_path=new_path",
                by simp [parseGraftsGo, hsp]⟩
            · intro _
              refine ⟨("--graft", p), by simp, rfl, Or.inl ?_⟩
              rw [hsp] at hcount
              simp at hcount
              show p.count '=' ≠ 1
              omega
    · have heq : parseGraftsGo rp acc ((o, p) :: rest) = parseGraftsGo rp acc rest := by
        simp [parseGraftsGo, ho]
      rw [heq, ← ih acc]
      constructor
      · rintro ⟨g, hg, hgn, hbad⟩
        rcases List.mem_cons.mp hg with rfl | hg'
        · exact absurd hgn ho
        · exact ⟨g, hg', hgn, hbad⟩
      · rintro ⟨g, hg, hgn, hbad⟩
        exact ⟨g, List.mem_cons_of_mem _ hg, hgn, hbad⟩

/-- Claim C10 counterexample: a single --graft with an empty parameter has no
'=' at all (so the claim says parsing must abort), but opt.graft is then
falsy, the `if opt.graft:` guard at save.py:83 skips the validation loop, and
parsing succeeds with no grafts. -/
theorem C10_counterexample :
    (∃ f ∈ ([("--graft", ([] : List Char))] : List (String × List Char)),
      f.1 = "--graft" ∧ graftBad f.2) ∧
    parseGrafts (fun p => p) [("--graft", [])] = .ok [] := by
  refine ⟨⟨("--graft", []), by simp, rfl, Or.inl (by decide)⟩, rfl⟩

/-- Claim C10 (amended): when opt.graft is truthy (the last --graft value is
non-empty), validation is fatal exactly when some --graft parameter does not
split on '=' into exactly two non-empty parts: no '=' or more than one '='
(a split of length other than two) or an empty old or new path aborts option
parsing, and otherwise parsing succeeds; when opt.graft is falsy (flag absent
or last value empty) the `if opt.graft:` guard skips validation entirely and
parsing succeeds with an empty graft list. -/
theorem C10_graft_guarded (rp : List Char → List Char)
    (flags : List (String × List Char)) :
    (graftOptTruthy (lastGraftValue flags) = true →
      ((∃ f ∈ flags, f.1 = "--graft" ∧ graftBad f.2) ↔
        ∃ msg, parseGrafts rp flags = .error msg)) ∧
    (graftOptTruthy (lastGraftValue flags) = false →
      parseGrafts rp flags = .ok []) := by
  constructor
  · intro h
    unfold parseGrafts
    rw [if_pos h]
    exact parseGraftsGo_error_iff rp flags []
  · intro h
    unfold parseGrafts
    rw [if_neg (by simp [h])]

/-- Claim C10 witness: with a truthy --graft a=b the iff applies (and the good
graft parses), while a lone empty --graft parameter skips validation. -/
theorem C10_graft_guarded_witness :
    ((∃ f ∈ ([("--graft", ['a', '=', 'b'])] : List (String × List Char)),
        f.1 = "--graft" ∧ graftBad f.2) ↔
      ∃ msg, parseGrafts (fun p => p) [("--graft", ['a', '=', 'b'])] = .error msg) ∧
    parseGrafts (fun p => p) [("--graft", ([] : List Char))] = .ok [] := by
  exact ⟨(C10_graft_guarded (fun p => p) [("--graft", ['a', '=', 'b'])]).1 (by decide),
         (C10_graft_guarded (fun p => p) [("--graft", [])]).2 (by decide)⟩

theorem dedupGo_eq (pp : String) :
    ∀ (xs : List DirEnt) (seen : List String) (clean : List DirEnt) (errs : List String),
      dedupGo pp seen clean errs xs =
        (clean ++ keptAfter seen xs, errs ++ dropsAfter pp seen xs) := by
  intro xs
  induction xs with
  | nil => intro seen clean errs; simp [dedupGo, keptAfter, dropsAfter]
  | cons x xs ih =>
    intro seen clean errs
    by_cases hx : x.name ∈ seen
    · simp [dedupGo, keptAfter, dropsAfter, hx, ih]
    · simp [dedupGo, keptAfter, dropsAfter, hx, ih]

theorem keptAfter_dropsAfter_length (pp : String) :
    ∀ (xs : List DirEnt) (seen : List String),
      (keptAfter seen xs).length + (dropsAfter pp seen xs).length = xs.length := by
  intro xs
  induction xs with
  | nil => intro seen; rfl
  | cons x xs ih =>
    intro seen
    by_cases hx : x.name ∈ seen
    · simp only [keptAfter, dropsAfter, hx, if_pos, List.length_cons]
      have := ih seen
      omega
    · simp only [keptAfter, dropsAfter, hx, if_neg, not_false_iff, List.length_cons]
      have := ih (seen ++ [x.name])
      omega

theorem keptAfter_eq_keepFirst_filter :
    ∀ (xs : List DirEnt) (seen : List String),
      keptAfter seen xs = keepFirst (xs.filter (fun y => !decide (y.name ∈ seen))) := by
  intro xs
  induction xs with
  | nil => intro seen; simp [keptAfter, keepFirst]
  | cons x xs ih =>
    intro seen
    by_cases hx : x.name ∈ seen
    · simp only [keptAfter, hx, if_pos, List.filter_cons, decide_True, Bool.not_true]
      exact ih seen
    · have hfx : (!decide (x.name ∈ seen)) = true := by simp [hx]
      simp only [keptAfter, hx, if_neg, not_false_iff, List.filter_cons, hfx, if_pos]
      rw [keepFirst.eq_def]
      rw [ih (seen ++ [x.name])]
      congr 1
      rw [List.filter_filter]
      congr 1
      apply List.filter_congr
      intro y _
      by_cases h1 : y.name = x.name <;> by_cases h2 : y.name ∈ seen <;>
        simp [h1, h2, List.mem_append]

theorem keptAfter_nil (xs : List DirEnt) : keptAfter [] xs = keepFirst xs := by
  rw [keptAfter_eq_keepFirst_filter]
  congr 1
  simp

theorem keepFirst_subset : ∀ (l : List DirEnt) (y : DirEnt), y ∈ keepFirst l → y ∈ l := by
  intro l
  induction l using keepFirst.induct with
  | case1 => intro y h; simp [keepFirst] at h
  | case2 x xs ih =>
    intro y h
    rw [keepFirst] at h
    rcases List.mem_cons.mp h with rfl | h'
    · exact List.mem_cons_self _ _
    · exact List.mem_cons_of_mem _ (List.mem_of_mem_filter (ih y h'))

theorem keepFirst_names_nodup : ∀ (l : List DirEnt),
    ((keepFirst l).map (fun x => x.name)).Nodup := by
  intro l
  induction l using keepFirst.induct with
  | case1 => simp [keepFirst]
  | case2 x xs ih =>
    rw [keepFirst]
    simp only [List.map_cons, List.nodup_cons]
    refine ⟨?_, ih⟩
    intro hmem
    obtain ⟨y, hy, hyn⟩ := List.mem_map.mp hmem
    have hne := (List.mem_filter.mp (keepFirst_subset _ _ hy)).2
    simp at hne
    exact hne hyn

/-- Claim C1: closing a frame without force_tree walks the items in insertion
order, drops from clean_list every item whose name equals an earlier item's
name (first occurrence wins), logs exactly one non-fatal error per dropped
item (appended to the error log by the pop), and the surviving names are
unique. -/
theorem C1_pop_dedup (env : Env) (st : SaveState) (dm : Option Metadata)
    (rest : List StackDir) (frame : StackDir) (hst : st.stack = rest ++ [frame]) :
    (dedupItems (String.intercalate "/" (rest.map (fun x => x.name)) ++ "/") frame.items).1 =
        keepFirst frame.items ∧
    ((keepFirst frame.items).map (fun x => x.name)).Nodup ∧
    (dedupItems (String.intercalate "/" (rest.map (fun x => x.name)) ++ "/")
        frame.items).2.length = frame.items.length - (keepFirst frame.items).length ∧
    (popFrame env st none dm).1.errors =
      st.errors ++
        (dedupItems (String.intercalate "/" (rest.map (fun x => x.name)) ++ "/")
          frame.items).2 := by
  have hdedup : ∀ pp, dedupItems pp frame.items =
      (keepFirst frame.items, dropsAfter pp [] frame.items) := by
    intro pp
    unfold dedupItems
    rw [dedupGo_eq]
    simp [keptAfter_nil]
  have hlen : ∀ pp, (dedupItems pp frame.items).2.length =
      frame.items.length - (keepFirst frame.items).length := by
    intro pp
    rw [hdedup pp]
    have h := keptAfter_dropsAfter_length pp frame.items []
    rw [keptAfter_nil] at h
    simp only []
    omega
  refine ⟨by rw [hdedup], keepFirst_names_nodup _, hlen _, ?_⟩
  simp only [popFrame, hst, List.getLast?_concat, List.dropLast_concat]
  simp only [buildTree]

/-- Claim C1 witness: a frame with items named a, b, a keeps the first a and
b, drops the second a with exactly one logged error. -/
theorem C1_pop_dedup_witness :
    (dedupItems "/" itemsC1).1 = keepFirst itemsC1 ∧
    ((keepFirst itemsC1).map (fun x => x.name)).Nodup ∧
    (dedupItems "/" itemsC1).2.length = itemsC1.length - (keepFirst itemsC1).length ∧
    (popFrame env0 stC1 none none).1.errors = [] ++ (dedupItems "/" itemsC1).2 ∧
    keepFirst itemsC1 =
      [⟨"a", 33188, 33188, 1, some {}⟩, ⟨"b", 33188, 33188, 2, some {}⟩] ∧
    (dedupItems "/" itemsC1).2 = [dupError "/" "a"] := by
  have h := C1_pop_dedup env0 stC1 none [⟨"", Metadata.empty, []⟩]
    ⟨"d", Metadata.empty, itemsC1⟩ rfl
  have hpp : String.intercalate "/"
      (([⟨"", Metadata.empty, []⟩] : List StackDir).map (fun x => x.name)) ++ "/" = "/" := by
    decide
  rw [hpp] at h
  refine ⟨h.1, h.2.1, h.2.2.1, h.2.2.2, ?_, ?_⟩
  · simp [itemsC1, keepFirst]
  · decide

theorem bytesLe_total : ∀ a b : List Char, (bytesLe a b || bytesLe b a) = true := by
  intro a
  induction a with
  | nil => intro b; simp [bytesLe]
  | cons x xs ih =>
    intro b
    cases b with
    | nil => simp [bytesLe]
    | cons y ys =>
      by_cases h1 : x < y
      · simp [bytesLe, h1]
      · by_cases h2 : y < x
        · simp [bytesLe, h1, h2]
        · simp [bytesLe, h1, h2, ih ys]

theorem bytesLe_trans : ∀ a b c : List Char,
    bytesLe a b = true → bytesLe b c = true → bytesLe a c = true := by
  intro a
  induction a with
  | nil => intro b c _ _; simp [bytesLe]
  | cons x xs ih =>
    intro b c hab hbc
    cases b with
    | nil => simp [bytesLe] at hab
    | cons y ys =>
      cases c with
      | nil => simp [bytesLe] at hbc
      | cons z zs =>
        by_cases hxy : x < y
        · by_cases hyz : y < z
          · simp [bytesLe, lt_trans hxy hyz]
          · by_cases hzy : z < y
            · simp [bytesLe, hyz, hzy] at hbc
            · have hyz' : y = z := le_antisymm (le_of_not_lt hzy) (le_of_not_lt hyz)
              subst hyz'
              simp [bytesLe, hxy]
        · by_cases hyx : y < x
          · simp [bytesLe, hxy, hyx] at hab
          · have hxy' : x = y := le_antisymm (le_of_not_lt hyx) (le_of_not_lt hxy)
            subst hxy'
            simp only [bytesLe, lt_irrefl, if_false] at hab hbc ⊢
            by_cases hxz : x < z
            · simp [hxz]
            · by_cases hzx : z < x
              · simp [hxz, hzx] at hbc
              · simp only [hxz, hzx, if_false] at hbc ⊢
                exact ih _ _ hab hbc

theorem keyLe_trans : ∀ a b c : String × Option Metadata,
    keyLe a b = true → keyLe b c = true → keyLe a c = true := by
  intro a b c hab hbc
  exact bytesLe_trans _ _ _ hab hbc

theorem keyLe_total : ∀ a b : String × Option Metadata, (keyLe a b || keyLe b a) = true := by
  intro a b
  exact bytesLe_total _ _

theorem mergeSort_empty_key_head (dm : Option Metadata)
    (tail : List (String × Option Metadata)) :
    (((("", dm) : String × Option Metadata) :: tail).mergeSort keyLe) =
      ("", dm) :: tail.mergeSort keyLe := by
  obtain ⟨l₁, l₂, h1, h2, h3⟩ := List.mergeSort_cons keyLe_trans keyLe_total ("", dm) tail
  have hl1 : l₁ = [] := by
    cases l₁ with
    | nil => rfl
    | cons p ps =>
      have := h3 p (List.mem_cons_self _ _)
      simp [keyLe, bytesLe] at this
  subst hl1
  simp only [List.nil_append] at h1 h2
  rw [h1, h2]

theorem metaRecords_eq_cons (dirMeta : Metadata) (clean : List DirEnt) :
    metaRecords dirMeta clean =
      ("", some dirMeta) ::
        ((clean.filter (fun e => e.mode ≠ GIT_MODE_TREE)).map
          (fun e => (shalist_item_sort_key e.mode e.name, e.meta))).mergeSort keyLe := by
  unfold metaRecords
  exact mergeSort_empty_key_head _ _

theorem metaRecordsClaim_eq_cons (dirMeta : Metadata) (clean : List DirEnt) :
    metaRecordsClaim dirMeta clean =
      ("", some dirMeta) ::
        ((clean.filter (fun e => e.gitmode ≠ GIT_MODE_TREE)).map
          (fun e => (shalist_item_sort_key e.mode e.name, e.meta))).mergeSort keyLe := by
  unfold metaRecordsClaim
  exact mergeSort_empty_key_head _ _

/-- Claim C4 (amended): for a frame closed by pop without force_tree, the
sidecar record stream is: the directory's own record (override if given, else
the frame's meta) first with the empty sort key, then exactly one record per
clean_list entry whose recorded filesystem MODE is not GIT_MODE_TREE (not
gitmode: a reused chunked file with gitmode TREE still gets a record), the
whole list stably sorted by the shalist sort key of (mode, name); and the pop
emits exactly the writer calls of hashsplitting that stream plus the final
tree. -/
theorem C4_sidecar (env : Env) (st : SaveState) (dm : Option Metadata)
    (rest : List StackDir) (frame : StackDir) (clean : List DirEnt) (dirMeta : Metadata)
    (hst : st.stack = rest ++ [frame])
    (hclean : clean =
      (dedupItems (String.intercalate "/" (rest.map (fun x => x.name)) ++ "/")
        frame.items).1)
    (hdm : dirMeta = dm.getD frame.meta) :
    metaRecords dirMeta clean =
      ("", some dirMeta) ::
        ((clean.filter (fun e => e.mode ≠ GIT_MODE_TREE)).map
          (fun e => (shalist_item_sort_key e.mode e.name, e.meta))).mergeSort keyLe ∧
    (metaRecords dirMeta clean).Perm
      (("", some dirMeta) ::
        (clean.filter (fun e => e.mode ≠ GIT_MODE_TREE)).map
          (fun e => (shalist_item_sort_key e.mode e.name, e.meta))) ∧
    List.Pairwise (fun a b => keyLe a b = true) (metaRecords dirMeta clean) ∧
    (popFrame env st none dm).1.wlog =
      st.wlog ++ (sidecarSplit env (metaRecords dirMeta clean)).1 ++
        [WCall.tree (mkShalist (sidecarSplit env (metaRecords dirMeta clean)).2.1
            (sidecarSplit env (metaRecords dirMeta clean)).2.2 clean)] := by
  refine ⟨metaRecords_eq_cons _ _, ?_, ?_, ?_⟩
  · unfold metaRecords
    exact List.mergeSort_perm _ keyLe
  · unfold metaRecords
    exact List.sorted_mergeSort keyLe_trans keyLe_total _
  · subst hdm hclean
    simp only [popFrame, hst, List.getLast?_concat, List.dropLast_concat]
    simp only [buildTree]
    simp [List.append_assoc]

/-- Claim C4 counterexample: a clean_list holding a reused chunked file
(regular mode 33188, gitmode TREE) gets a sidecar record from the code (which
filters on mode), while the claim's gitmode-based exclusion would drop it, so
the two streams differ. -/
theorem C4_counterexample :
    cleanC4 = [⟨"a", 33188, GIT_MODE_TREE, 5, some { size := 7 }⟩] ∧
    (dedupItems "/" cleanC4).1 = cleanC4 ∧
    metaRecords Metadata.empty cleanC4 =
      [("", some Metadata.empty), ("a", some { size := 7 })] ∧
    metaRecordsClaim Metadata.empty cleanC4 = [("", some Metadata.empty)] ∧
    metaRecords Metadata.empty cleanC4 ≠ metaRecordsClaim Metadata.empty cleanC4 := by
  have h1 : metaRecords Metadata.empty cleanC4 =
      [("", some Metadata.empty), ("a", some { size := 7 })] := by
    rw [metaRecords_eq_cons]
    have hk : shalist_item_sort_key 33188 "a" = "a" := by
      unfold shalist_item_sort_key
      rw [if_neg]
      decide
    simp [cleanC4, GIT_MODE_TREE, hk, List.mergeSort_singleton]
  have h2 : metaRecordsClaim Metadata.empty cleanC4 = [("", some Metadata.empty)] := by
    rw [metaRecordsClaim_eq_cons]
    simp [cleanC4, GIT_MODE_TREE, List.mergeSort_nil]
  refine ⟨rfl, by decide, h1, h2, ?_⟩
  rw [h1, h2]
  simp

/-- Claim C4 witness: the sidecar structure theorem applied to the concrete
chunked-file frame. -/
theorem C4_sidecar_witness :
    metaRecords Metadata.empty cleanC4 =
      ("", some Metadata.empty) ::
        ((cleanC4.filter (fun e => e.mode ≠ GIT_MODE_TREE)).map
          (fun e => (shalist_item_sort_key e.mode e.name, e.meta))).mergeSort keyLe ∧
    List.Pairwise (fun a b => keyLe a b = true) (metaRecords Metadata.empty cleanC4) ∧
    (popFrame env0 stC4 none none).1.wlog =
      stC4.wlog ++ (sidecarSplit env0 (metaRecords Metadata.empty cleanC4)).1 ++
        [WCall.tree (mkShalist (sidecarSplit env0 (metaRecords Metadata.empty cleanC4)).2.1
            (sidecarSplit env0 (metaRecords Metadata.empty cleanC4)).2.2 cleanC4)] := by
  have h := C4_sidecar env0 stC4 none [⟨"", Metadata.empty, []⟩]
    ⟨"d", Metadata.empty, cleanC4⟩ cleanC4 Metadata.empty rfl (by decide) rfl
  exact ⟨h.1, h.2.2.1, h.2.2.2⟩

theorem bumpCount_stack (st : SaveState) (e : IndexEntry) (b : Bool) :
    (bumpCount st e b).stack = st.stack := by
  unfold bumpCount
  split <;> rfl

theorem bumpCount_errors (st : SaveState) (e : IndexEntry) (b : Bool) :
    (bumpCount st e b).errors = st.errors := by
  unfold bumpCount
  split <;> rfl

theorem bumpCount_wlog (st : SaveState) (e : IndexEntry) (b : Bool) :
    (bumpCount st e b).wlog = st.wlog := by
  unfold bumpCount
  split <;> rfl

theorem bumpCount_lastskip (st : SaveState) (e : IndexEntry) (b : Bool) :
    (bumpCount st e b).lastskipName = st.lastskipName := by
  unfold bumpCount
  split <;> rfl

theorem popFrame_force (env : Env) (st : SaveState) (x : Oid) (dm : Option Metadata)
    (rest : List StackDir) (frame : StackDir) (hst : st.stack = rest ++ [frame]) :
    popFrame env st (some x) dm =
      ({ st with stack := appendToTop rest frame.name GIT_MODE_TREE GIT_MODE_TREE x none },
       x) := by
  simp only [popFrame, hst, List.getLast?_concat, List.dropLast_concat]

theorem popFrame_build (env : Env) (st : SaveState) (dm : Option Metadata)
    (rest : List StackDir) (frame : StackDir) (hst : st.stack = rest ++ [frame]) :
    popFrame env st none dm =
      ({ st with
          stack := appendToTop rest frame.name GIT_MODE_TREE GIT_MODE_TREE
            (buildTree env (rest.map (fun x => x.name)) frame dm).1 none,
          errors := st.errors ++ (buildTree env (rest.map (fun x => x.name)) frame dm).2.1,
          wlog := st.wlog ++ (buildTree env (rest.map (fun x => x.name)) frame dm).2.2 },
       (buildTree env (rest.map (fun x => x.name)) frame dm).1) := by
  simp only [popFrame, hst, List.getLast?_concat, List.dropLast_concat]

theorem processEntry_align (env : Env) (st : SaveState) (ent : IndexEntry)
    (hex : ent.ex = true)
    (hsm : ¬(env.smaller ≠ 0 ∧ env.smaller ≤ ent.size))
    (hnogt : namesGt (st.stack.map (fun x => x.name))
      ((env.dirpOf (osPathSplit ent.name).1).map (fun c => c.1)) = false)
    (hpush : (env.dirpOf (osPathSplit ent.name).1).length ≤ st.stack.length) :
    processEntry env st ent =
      handleEntry env (updateRoots st (env.dirpOf (osPathSplit ent.name).1)) ent
        (osPathSplit ent.name).2 := by
  simp only [processEntry, hex]
  rw [if_neg (by simp)]
  rw [if_neg hsm]
  rw [popWhileGt_id _ _ _ (by rw [updateRoots_stack]; exact hnogt)]
  rw [List.drop_eq_nil_of_le (by rw [updateRoots_stack]; exact hpush), pushComponents_nil]

/-- Claim C3: a non-root directory entry closes its frame.  Hash-valid: pop is
forced with the stored sha, that oid becomes the parent's child entry, nothing
is built or written, and the entry is neither revalidated nor repacked.  Not
hash-valid: the tree is rebuilt (writing the sidecar and tree), the entry is
invalidated when lastskip_name starts with the entry's path and otherwise
validated as (TREE, new tree oid), and in both rebuild cases it is
repacked. -/
theorem C3_dir_close (env : Env) (st : SaveState) (ent : IndexEntry)
    (rest : List StackDir) (frame : StackDir)
    (hfile : (osPathSplit ent.name).2 = "")
    (hex : ent.ex = true)
    (hsm : ¬(env.smaller ≠ 0 ∧ env.smaller ≤ ent.size))
    (hnogt : namesGt (st.stack.map (fun x => x.name))
      ((env.dirpOf (osPathSplit ent.name).1).map (fun c => c.1)) = false)
    (hpush : (env.dirpOf (osPathSplit ent.name).1).length ≤ st.stack.length)
    (hst : st.stack = rest ++ [frame]) (hrest : rest ≠ []) :
    (∀ x, already_saved env ent = some x →
      processEntry env st ent =
        ⟨bumpCount { updateRoots st (env.dirpOf (osPathSplit ent.name).1) with
            stack := appendToTop rest frame.name GIT_MODE_TREE GIT_MODE_TREE x none }
          ent false, ent, false⟩) ∧
    (already_saved env ent = none →
      processEntry env st ent =
        ⟨bumpCount { updateRoots st (env.dirpOf (osPathSplit ent.name).1) with
            stack := appendToTop rest frame.name GIT_MODE_TREE GIT_MODE_TREE
              (buildTree env (rest.map (fun x => x.name)) frame none).1 none,
            errors := st.errors ++ (buildTree env (rest.map (fun x => x.name)) frame none).2.1,
            wlog := st.wlog ++ (buildTree env (rest.map (fun x => x.name)) frame none).2.2 }
          ent false,
         if (match st.lastskipName with
             | some n => decide (n ≠ "") && n.startsWith ent.name
             | none => false) = true
         then ent.invalidate
         else ent.validate GIT_MODE_TREE (buildTree env (rest.map (fun x => x.name)) frame none).1,
         true⟩) := by
  have halign := processEntry_align env st ent hex hsm hnogt hpush
  have hstack3 : (updateRoots st (env.dirpOf (osPathSplit ent.name).1)).stack =
      rest ++ [frame] := by
    rw [updateRoots_stack, hst]
  have hlen3 : (updateRoots st (env.dirpOf (osPathSplit ent.name).1)).stack.length ≠ 1 := by
    rw [hstack3]
    simp only [List.length_append, List.length_singleton]
    intro hcon
    apply hrest
    have h0 : rest.length = 0 := by omega
    exact List.eq_nil_of_length_eq_zero h0
  constructor
  · intro x hv
    rw [halign]
    unfold handleEntry
    rw [hfile, if_pos rfl, if_neg hlen3, hv]
    simp only [popFrame_force env _ x none rest frame hstack3]
  · intro hv
    rw [halign]
    unfold handleEntry
    rw [hfile, if_pos rfl, if_neg hlen3, hv]
    simp only [popFrame_build env _ none rest frame hstack3,
      updateRoots_errors, updateRoots_wlog, updateRoots_lastskip]

/-- Claim C3 witness: on /a/ with an aligned two-frame stack, the hash-valid
entry forces the pop to emit the stored sha 7 without repacking, and the
non-hash-valid entry is revalidated as (TREE, rebuilt tree) and repacked. -/
theorem C3_dir_close_witness :
    (processEntry envC3 stC3 entC3v).st.stack =
      [StackDir.append ⟨"", Metadata.empty, []⟩ "a" GIT_MODE_TREE GIT_MODE_TREE 7 none] ∧
    (processEntry envC3 stC3 entC3v).ent = entC3v ∧
    (processEntry envC3 stC3 entC3v).repacked = false ∧
    (processEntry envC3 stC3 entC3).repacked = true ∧
    (processEntry envC3 stC3 entC3).ent =
      entC3.validate GIT_MODE_TREE
        (buildTree envC3 [""] ⟨"a", Metadata.empty, []⟩ none).1 := by
  have h := C3_dir_close envC3 stC3 entC3v [⟨"", Metadata.empty, []⟩]
    ⟨"a", Metadata.empty, []⟩ (by decide) rfl (by decide) (by decide) (by decide) rfl
    (by decide)
  have h2 := C3_dir_close envC3 stC3 entC3 [⟨"", Metadata.empty, []⟩]
    ⟨"a", Metadata.empty, []⟩ (by decide) rfl (by decide) (by decide) (by decide) rfl
    (by decide)
  have ha := h.1 7 rfl
  have hb := h2.2 rfl
  refine ⟨?_, ?_, ?_, ?_, ?_⟩
  · rw [ha, bumpCount_stack]
    simp [appendToTop]
  · rw [ha]
  · rw [ha]
  · rw [hb]
  · rw [hb]
    simp [stC3]

theorem processEntry_hashvalid_eval (env : Env) (st : SaveState) (ent : IndexEntry)
    (hfile : (osPathSplit ent.name).2 ≠ "")
    (hex : ent.ex = true)
    (hsm : ¬(env.smaller ≠ 0 ∧ env.smaller ≤ ent.size))
    (hnogt : namesGt (st.stack.map (fun x => x.name))
      ((env.dirpOf (osPathSplit ent.name).1).map (fun c => c.1)) = false)
    (hpush : (env.dirpOf (osPathSplit ent.name).1).length ≤ st.stack.length)
    (hvalid : ent.valid = true) (hobj : env.objExists ent.sha = true) :
    processEntry env st ent =
      ⟨bumpCount { updateRoots st (env.dirpOf (osPathSplit ent.name).1) with
          stack := appendToTop st.stack (osPathSplit ent.name).2 ent.mode ent.gitmode ent.sha
            (some { env.metadata_at ent.meta_ofs with
                hardlink_target := find_hardlink_target env.node_paths ent,
                atime := ent.atime, mtime := ent.mtime, ctime := ent.ctime }) }
        ent true, ent, false⟩ := by
  have hv : already_saved env ent = some ent.sha := by
    unfold already_saved
    rw [hvalid, hobj]
    simp
  rw [processEntry_align env st ent hex hsm hnogt hpush]
  unfold handleEntry
  rw [if_neg hfile, hv]
  simp only [updateRoots_stack]

theorem find_hardlink_target_eval (np : Nat → Nat → List String) (e : IndexEntry) :
    find_hardlink_target (some np) e =
      if ¬ S_ISDIR e.mode ∧ 1 < e.nlink then (np e.dev e.ino).head? else none := by
  cases h : np e.dev e.ino with
  | nil => simp [find_hardlink_target, h]
  | cons p ps => simp [find_hardlink_target, h]

/-- Claim C5: a hash-valid non-directory entry is reused without touching the
filesystem: the result does not depend on the filesystem oracles at all, the
metadata is loaded from the metastore at meta_ofs with atime/mtime/ctime
restored from the index and hardlink_target attached from the hardlink DB
(first reported path, when the entry is not a directory and nlink exceeds 1),
and the entry is appended to the top frame with its stored sha, without
validate or repack and without writing anything. -/
theorem C5_hashvalid_reuse (env : Env) (st : SaveState) (ent : IndexEntry)
    (hfile : (osPathSplit ent.name).2 ≠ "")
    (hex : ent.ex = true)
    (hsm : ¬(env.smaller ≠ 0 ∧ env.smaller ≤ ent.size))
    (hnogt : namesGt (st.stack.map (fun x => x.name))
      ((env.dirpOf (osPathSplit ent.name).1).map (fun c => c.1)) = false)
    (hpush : (env.dirpOf (osPathSplit ent.name).1).length ≤ st.stack.length)
    (hvalid : ent.valid = true) (hobj : env.objExists ent.sha = true) :
    (∀ mfp rf,
      processEntry { env with meta_from_path := mfp, read_file := rf } st ent =
        processEntry env st ent) ∧
    processEntry env st ent =
      ⟨bumpCount { updateRoots st (env.dirpOf (osPathSplit ent.name).1) with
          stack := appendToTop st.stack (osPathSplit ent.name).2 ent.mode ent.gitmode ent.sha
            (some { env.metadata_at ent.meta_ofs with
                hardlink_target := find_hardlink_target env.node_paths ent,
                atime := ent.atime, mtime := ent.mtime, ctime := ent.ctime }) }
        ent true, ent, false⟩ ∧
    (∀ np, env.node_paths = some np →
      find_hardlink_target env.node_paths ent =
        if ¬ S_ISDIR ent.mode ∧ 1 < ent.nlink then (np ent.dev ent.ino).head? else none) := by
  have hmain := processEntry_hashvalid_eval env st ent hfile hex hsm hnogt hpush hvalid hobj
  refine ⟨?_, hmain, ?_⟩
  · intro mfp rf
    have hmain2 := processEntry_hashvalid_eval
      { env with meta_from_path := mfp, read_file := rf } st ent hfile hex hsm hnogt hpush
      hvalid hobj
    rw [hmain, hmain2]
  · intro np hnp
    rw [hnp]
    exact find_hardlink_target_eval np ent

/-- Claim C5 witness: the hash-valid file /a/f is reused; breaking the
filesystem oracles does not change the result, and the appended child carries
the metastore record with restored times and the hardlink target. -/
theorem C5_hashvalid_reuse_witness :
    processEntry
      { envC5 with meta_from_path := (fun _ => Except.error ("no fs")),
                   read_file := (fun _ => Except.error ("no fs")) } stC5 entC5 =
      processEntry envC5 stC5 entC5 ∧
    (processEntry envC5 stC5 entC5).st.stack =
      [⟨"", Metadata.empty, []⟩,
       StackDir.append ⟨"a", Metadata.empty, []⟩ "f" 33188 33188 9
         (some { size := 55, hardlink_target := some "/first",
                 atime := 11, mtime := 12, ctime := 13 })] ∧
    (processEntry envC5 stC5 entC5).ent = entC5 ∧
    (processEntry envC5 stC5 entC5).repacked = false := by
  have h := C5_hashvalid_reuse envC5 stC5 entC5 (by decide) rfl (by decide) (by decide)
    (by decide) rfl rfl
  refine ⟨h.1 _ _, ?_, ?_, ?_⟩
  · rw [h.2.1, bumpCount_stack]
    simp only [updateRoots_stack]
    simp [appendToTop, envC5, env0, stC5, entC5, find_hardlink_target]
    rw [show (osPathSplit "/a/f").2 = "f" from by decide]
    rw [if_neg (show ¬ S_ISDIR 33188 from by decide)]
  · rw [h.2.1]
  · rw [h.2.1]

/-- Claim C6: a non-hash-valid entry whose freshly-stated type bits differ
from the indexed mode's type bits is skipped: one error is logged,
lastskip_name is set to the entry's path, the stack and the write log are
unchanged (no blob or tree written, nothing appended), and the entry is
neither mutated nor repacked. -/
theorem C6_mode_drift (env : Env) (st : SaveState) (ent : IndexEntry) (m : Metadata)
    (hfile : (osPathSplit ent.name).2 ≠ "")
    (hex : ent.ex = true)
    (hsm : ¬(env.smaller ≠ 0 ∧ env.smaller ≤ ent.size))
    (hnogt : namesGt (st.stack.map (fun x => x.name))
      ((env.dirpOf (osPathSplit ent.name).1).map (fun c => c.1)) = false)
    (hpush : (env.dirpOf (osPathSplit ent.name).1).length ≤ st.stack.length)
    (hv : already_saved env ent = none)
    (hmeta : env.meta_from_path ent.name = .ok m)
    (hdrift : S_IFMT ent.mode ≠ S_IFMT m.mode) :
    processEntry env st ent =
      ⟨{ updateRoots st (env.dirpOf (osPathSplit ent.name).1) with
          errors := st.errors ++ [ent.name ++ ": mode changed since indexing, skipping."],
          lastskipName := some ent.name }, ent, false⟩ ∧
    (processEntry env st ent).st.stack = st.stack ∧
    (processEntry env st ent).st.wlog = st.wlog ∧
    (processEntry env st ent).ent = ent ∧
    (processEntry env st ent).repacked = false := by
  have hmain : processEntry env st ent =
      ⟨{ updateRoots st (env.dirpOf (osPathSplit ent.name).1) with
          errors := st.errors ++ [ent.name ++ ": mode changed since indexing, skipping."],
          lastskipName := some ent.name }, ent, false⟩ := by
    have hdrift2 : S_IFMT ent.mode ≠ S_IFMT
        ({ m with hardlink_target := find_hardlink_target env.node_paths ent } :
          Metadata).mode := hdrift
    rw [processEntry_align env st ent hex hsm hnogt hpush]
    unfold handleEntry
    rw [if_neg hfile, hv]
    simp only [hmeta]
    rw [if_pos hdrift2]
    simp only [updateRoots_errors]
  refine ⟨hmain, ?_, ?_, ?_, ?_⟩ <;> rw [hmain]
  · exact updateRoots_stack _ _
  · exact updateRoots_wlog _ _

/-- Claim C6 witness: /a/f indexed as a regular file but freshly stat-ed as a
fifo is skipped with one logged error and no state change beyond
lastskip_name. -/
theorem C6_mode_drift_witness :
    processEntry envC6 stC6 entC6 =
      ⟨{ updateRoots stC6 (envC6.dirpOf "/a") with
          errors := ["/a/f" ++ ": mode changed since indexing, skipping."],
          lastskipName := some "/a/f" }, entC6, false⟩ ∧
    (processEntry envC6 stC6 entC6).st.stack = stC6.stack ∧
    (processEntry envC6 stC6 entC6).st.wlog = [] ∧
    (processEntry envC6 stC6 entC6).ent = entC6 ∧
    (processEntry envC6 stC6 entC6).repacked = false := by
  have h := C6_mode_drift envC6 stC6 entC6 { mode := 4516 } (by decide) rfl (by decide)
    (by decide) (by decide) rfl rfl (by decide)
  exact ⟨h.1, h.2.1, h.2.2.1, h.2.2.2.1, h.2.2.2.2⟩

theorem split_to_blob_or_tree_state {σ : Type} (cut : List Nat → List (List Nat))
    (mkB : σ → List Nat → σ × Oid) (mkT : σ → List (Nat × String × Oid) → σ × Oid)
    (P : σ → Prop)
    (hB : ∀ s d, P s → P (mkB s d).1)
    (hT : ∀ s es, P s → P (mkT s es).1)
    (s0 : σ) (hs0 : P s0) (input : List Nat) :
    P (split_to_blob_or_tree cut mkB mkT s0 input).1 := by
  have hfold : ∀ (chunks : List (List Nat)) (acc : σ × List Oid), P acc.1 →
      P ((chunks.foldl (fun acc c =>
        let b := mkB acc.1 c
        (b.1, acc.2 ++ [b.2])) acc)).1 := by
    intro chunks
    induction chunks with
    | nil => intro acc h; exact h
    | cons c cs ih =>
      intro acc h
      exact ih _ (hB _ _ h)
    
  unfold split_to_blob_or_tree
  dsimp only
  split
  · exact hB _ _ (hfold _ _ hs0)
  · exact hfold _ _ hs0
  · exact hT _ _ (hfold _ _ hs0)

theorem blobBytes_append (a b : List WCall) :
    blobBytes (a ++ b) = blobBytes a + blobBytes b := by
  unfold blobBytes
  rw [List.filterMap_append, List.sum_append]

theorem split_size_eq_blobBytes (env : Env) (content : List Nat) :
    (regSplit env content).1.1 = blobBytes (regSplit env content).1.2 := by
  unfold regSplit
  exact split_to_blob_or_tree_state env.cut
    (fun s d => ((s.1 + d.length, s.2 ++ [WCall.blob d]), env.new_blob d))
    (fun s es => ((s.1, s.2 ++ [WCall.tree es]), env.new_tree es))
    (fun s => s.1 = blobBytes s.2)
    (by
      intro s d hs
      show s.1 + d.length = blobBytes (s.2 ++ [WCall.blob d])
      rw [blobBytes_append, hs]
      simp [blobBytes])
    (by
      intro s es hs
      show s.1 = blobBytes (s.2 ++ [WCall.tree es])
      rw [blobBytes_append, hs]
      simp [blobBytes])
    ((0 : Nat), ([] : List WCall))
    (by simp [blobBytes])
    content

theorem processEntry_reg_eval (env : Env) (st : SaveState) (ent : IndexEntry)
    (m : Metadata) (content : List Nat)
    (hfile : (osPathSplit ent.name).2 ≠ "")
    (hex : ent.ex = true)
    (hsm : ¬(env.smaller ≠ 0 ∧ env.smaller ≤ ent.size))
    (hnogt : namesGt (st.stack.map (fun x => x.name))
      ((env.dirpOf (osPathSplit ent.name).1).map (fun c => c.1)) = false)
    (hpush : (env.dirpOf (osPathSplit ent.name).1).length ≤ st.stack.length)
    (hv : already_saved env ent = none)
    (hmeta : env.meta_from_path ent.name = .ok m)
    (hsame : S_IFMT ent.mode = S_IFMT m.mode)
    (hreg : S_ISREG ent.mode)
    (hread : env.read_file ent.name = .ok content) :
    processEntry env st ent =
      ⟨bumpCount { updateRoots st (env.dirpOf (osPathSplit ent.name).1) with
          wlog := st.wlog ++ (regSplit env content).1.2,
          stack := appendToTop st.stack (osPathSplit ent.name).2
            (ent.validate (regSplit env content).2.1 (regSplit env content).2.2).mode
            (ent.validate (regSplit env content).2.1 (regSplit env content).2.2).gitmode
            (regSplit env content).2.2
            (some { m with
                hardlink_target := find_hardlink_target env.node_paths ent,
                size := (regSplit env content).1.1 }) }
        ent true,
       ent.validate (regSplit env content).2.1 (regSplit env content).2.2,
       true⟩ := by
  rw [processEntry_align env st ent hex hsm hnogt hpush]
  unfold handleEntry
  rw [if_neg hfile, hv]
  simp only [hmeta]
  rw [if_neg (show ¬(S_IFMT ent.mode ≠ S_IFMT
    ({ m with hardlink_target := find_hardlink_target env.node_paths ent } :
      Metadata).mode) from fun hc => hc hsame)]
  rw [if_pos hreg]
  simp only [hread]
  simp only [updateRoots_wlog, updateRoots_stack]

theorem processEntry_regfail_eval (env : Env) (st : SaveState) (ent : IndexEntry)
    (m : Metadata) (msg : String)
    (hfile : (osPathSplit ent.name).2 ≠ "")
    (hex : ent.ex = true)
    (hsm : ¬(env.smaller ≠ 0 ∧ env.smaller ≤ ent.size))
    (hnogt : namesGt (st.stack.map (fun x => x.name))
      ((env.dirpOf (osPathSplit ent.name).1).map (fun c => c.1)) = false)
    (hpush : (env.dirpOf (osPathSplit ent.name).1).length ≤ st.stack.length)
    (hv : already_saved env ent = none)
    (hmeta : env.meta_from_path ent.name = .ok m)
    (hsame : S_IFMT ent.mode = S_IFMT m.mode)
    (hreg : S_ISREG ent.mode)
    (hread : env.read_file ent.name = .error msg) :
    processEntry env st ent =
      ⟨bumpCount { updateRoots st (env.dirpOf (osPathSplit ent.name).1) with
          errors := st.errors ++ [ent.name ++ ": " ++ msg],
          lastskipName := some ent.name } ent true, ent, false⟩ := by
  rw [processEntry_align env st ent hex hsm hnogt hpush]
  unfold handleEntry
  rw [if_neg hfile, hv]
  simp only [hmeta]
  rw [if_neg (show ¬(S_IFMT ent.mode ≠ S_IFMT
    ({ m with hardlink_target := find_hardlink_target env.node_paths ent } :
      Metadata).mode) from fun hc => hc hsame)]
  rw [if_pos hreg]
  simp only [hread]
  simp only [updateRoots_errors]

theorem processEntry_symlink_eval (env : Env) (st : SaveState) (ent : IndexEntry)
    (m : Metadata)
    (hfile : (osPathSplit ent.name).2 ≠ "")
    (hex : ent.ex = true)
    (hsm : ¬(env.smaller ≠ 0 ∧ env.smaller ≤ ent.size))
    (hnogt : namesGt (st.stack.map (fun x => x.name))
      ((env.dirpOf (osPathSplit ent.name).1).map (fun c => c.1)) = false)
    (hpush : (env.dirpOf (osPathSplit ent.name).1).length ≤ st.stack.length)
    (hv : already_saved env ent = none)
    (hmeta : env.meta_from_path ent.name = .ok m)
    (hsame : S_IFMT ent.mode = S_IFMT m.mode)
    (hnreg : ¬ S_ISREG ent.mode)
    (hndir : ¬ S_ISDIR ent.mode)
    (hlnk : S_ISLNK ent.mode) :
    processEntry env st ent =
      ⟨bumpCount { updateRoots st (env.dirpOf (osPathSplit ent.name).1) with
          wlog := st.wlog ++ [WCall.blob m.symlink_target],
          stack := appendToTop st.stack (osPathSplit ent.name).2
            (ent.validate GIT_MODE_SYMLINK (env.new_blob m.symlink_target)).mode
            (ent.validate GIT_MODE_SYMLINK (env.new_blob m.symlink_target)).gitmode
            (env.new_blob m.symlink_target)
            (some { m with hardlink_target := find_hardlink_target env.node_paths ent }) }
        ent true,
       ent.validate GIT_MODE_SYMLINK (env.new_blob m.symlink_target), true⟩ := by
  rw [processEntry_align env st ent hex hsm hnogt hpush]
  unfold handleEntry
  rw [if_neg hfile, hv]
  simp only [hmeta]
  rw [if_neg (show ¬(S_IFMT ent.mode ≠ S_IFMT
    ({ m with hardlink_target := find_hardlink_target env.node_paths ent } :
      Metadata).mode) from fun hc => hc hsame)]
  rw [if_neg hnreg, if_neg hndir, if_pos hlnk]
  simp only [updateRoots_wlog, updateRoots_stack]

theorem processEntry_other_eval (env : Env) (st : SaveState) (ent : IndexEntry)
    (m : Metadata)
    (hfile : (osPathSplit ent.name).2 ≠ "")
    (hex : ent.ex = true)
    (hsm : ¬(env.smaller ≠ 0 ∧ env.smaller ≤ ent.size))
    (hnogt : namesGt (st.stack.map (fun x => x.name))
      ((env.dirpOf (osPathSplit ent.name).1).map (fun c => c.1)) = false)
    (hpush : (env.dirpOf (osPathSplit ent.name).1).length ≤ st.stack.length)
    (hv : already_saved env ent = none)
    (hmeta : env.meta_from_path ent.name = .ok m)
    (hsame : S_IFMT ent.mode = S_IFMT m.mode)
    (hnreg : ¬ S_ISREG ent.mode)
    (hndir : ¬ S_ISDIR ent.mode)
    (hnlnk : ¬ S_ISLNK ent.mode) :
    processEntry env st ent =
      ⟨bumpCount { updateRoots st (env.dirpOf (osPathSplit ent.name).1) with
          wlog := st.wlog ++ [WCall.blob []],
          stack := appendToTop st.stack (osPathSplit ent.name).2
            (ent.validate GIT_MODE_FILE (env.new_blob [])).mode
            (ent.validate GIT_MODE_FILE (env.new_blob [])).gitmode
            (env.new_blob [])
            (some { m with hardlink_target := find_hardlink_target env.node_paths ent }) }
        ent true,
       ent.validate GIT_MODE_FILE (env.new_blob []), true⟩ := by
  rw [processEntry_align env st ent hex hsm hnogt hpush]
  unfold handleEntry
  rw [if_neg hfile, hv]
  simp only [hmeta]
  rw [if_neg (show ¬(S_IFMT ent.mode ≠ S_IFMT
    ({ m with hardlink_target := find_hardlink_target env.node_paths ent } :
      Metadata).mode) from fun hc => hc hsame)]
  rw [if_neg hnreg, if_neg hndir, if_neg hnlnk]
  simp only [updateRoots_wlog, updateRoots_stack]

/-- Claim C7: for a stat-and-stored regular file, the recorded metadata size
is the accumulated byte count of exactly the data chunks passed to new_blob
during hashsplitting (meta.size is reset to 0 and summed by the make_blob
wrapper), independent of the size the earlier stat reported (which is
arbitrary in m). -/
theorem C7_size_from_bytes_read (env : Env) (st : SaveState) (ent : IndexEntry)
    (m : Metadata) (content : List Nat)
    (hfile : (osPathSplit ent.name).2 ≠ "")
    (hex : ent.ex = true)
    (hsm : ¬(env.smaller ≠ 0 ∧ env.smaller ≤ ent.size))
    (hnogt : namesGt (st.stack.map (fun x => x.name))
      ((env.dirpOf (osPathSplit ent.name).1).map (fun c => c.1)) = false)
    (hpush : (env.dirpOf (osPathSplit ent.name).1).length ≤ st.stack.length)
    (hv : already_saved env ent = none)
    (hmeta : env.meta_from_path ent.name = .ok m)
    (hsame : S_IFMT ent.mode = S_IFMT m.mode)
    (hreg : S_ISREG ent.mode)
    (hread : env.read_file ent.name = .ok content) :
    (processEntry env st ent).st.stack =
      appendToTop st.stack (osPathSplit ent.name).2 ent.mode
        (regSplit env content).2.1 (regSplit env content).2.2
        (some { m with
            hardlink_target := find_hardlink_target env.node_paths ent,
            size := (regSplit env content).1.1 }) ∧
    (regSplit env content).1.1 = blobBytes (regSplit env content).1.2 ∧
    (processEntry env st ent).st.wlog = st.wlog ++ (regSplit env content).1.2 := by
  have h := processEntry_reg_eval env st ent m content hfile hex hsm hnogt hpush hv hmeta
    hsame hreg hread
  refine ⟨?_, split_size_eq_blobBytes env content, ?_⟩
  · rw [h, bumpCount_stack]
    simp [IndexEntry.validate]
  · rw [h, bumpCount_wlog]

/-- Claim C7 witness: a file statted at 999 bytes whose read yields 5 bytes in
chunks of 2 and 3 records size 5 (the bytes passed to new_blob), not 999. -/
theorem C7_size_from_bytes_read_witness :
    (regSplit envC7 [1, 2, 3, 4, 5]).1.1 = 5 ∧
    blobBytes (regSplit envC7 [1, 2, 3, 4, 5]).1.2 = 5 ∧
    entC7.size = 999 ∧
    (processEntry envC7 stC7 entC7).st.stack =
      appendToTop stC7.stack "f" 33188 GIT_MODE_TREE 102
        (some { mode := 33188, size := 5, hardlink_target := none }) := by
  have h := C7_size_from_bytes_read envC7 stC7 entC7 { mode := 33188, size := 999 }
    [1, 2, 3, 4, 5] (by decide) rfl (by decide) (by decide) (by decide) rfl rfl
    (by decide) (by decide) rfl
  refine ⟨by decide, by decide, rfl, ?_⟩
  rw [h.1]
  decide

/-- Claim C9: the stat-and-store path for non-directory entries.  Success
stores, revalidates in place with the stored mode and oid, repacks, and
appends to the top frame; a read failure on a regular file logs one error,
sets lastskip_name, and leaves the entry, the stack and the write log
untouched (no validate, no repack, no append). -/
theorem C9_store_or_fail (env : Env) (st : SaveState) (ent : IndexEntry) (m : Metadata)
    (hfile : (osPathSplit ent.name).2 ≠ "")
    (hex : ent.ex = true)
    (hsm : ¬(env.smaller ≠ 0 ∧ env.smaller ≤ ent.size))
    (hnogt : namesGt (st.stack.map (fun x => x.name))
      ((env.dirpOf (osPathSplit ent.name).1).map (fun c => c.1)) = false)
    (hpush : (env.dirpOf (osPathSplit ent.name).1).length ≤ st.stack.length)
    (hv : already_saved env ent = none)
    (hmeta : env.meta_from_path ent.name = .ok m)
    (hsame : S_IFMT ent.mode = S_IFMT m.mode) :
    (∀ content, env.read_file ent.name = .ok content → S_ISREG ent.mode →
      (processEntry env st ent).ent =
        ent.validate (regSplit env content).2.1 (regSplit env content).2.2 ∧
      (processEntry env st ent).repacked = true ∧
      (processEntry env st ent).st.stack =
        appendToTop st.stack (osPathSplit ent.name).2 ent.mode
          (regSplit env content).2.1 (regSplit env content).2.2
          (some { m with
              hardlink_target := find_hardlink_target env.node_paths ent,
              size := (regSplit env content).1.1 })) ∧
    (∀ msg, env.read_file ent.name = .error msg → S_ISREG ent.mode →
      (processEntry env st ent).ent = ent ∧
      (processEntry env st ent).repacked = false ∧
      (processEntry env st ent).st.stack = st.stack ∧
      (processEntry env st ent).st.wlog = st.wlog ∧
      (processEntry env st ent).st.errors = st.errors ++ [ent.name ++ ": " ++ msg] ∧
      (processEntry env st ent).st.lastskipName = some ent.name) ∧
    (¬ S_ISREG ent.mode → ¬ S_ISDIR ent.mode → S_ISLNK ent.mode →
      (processEntry env st ent).ent =
        ent.validate GIT_MODE_SYMLINK (env.new_blob m.symlink_target) ∧
      (processEntry env st ent).repacked = true ∧
      (processEntry env st ent).st.stack =
        appendToTop st.stack (osPathSplit ent.name).2 ent.mode GIT_MODE_SYMLINK
          (env.new_blob m.symlink_target)
          (some { m with hardlink_target := find_hardlink_target env.node_paths ent })) ∧
    (¬ S_ISREG ent.mode → ¬ S_ISDIR ent.mode → ¬ S_ISLNK ent.mode →
      (processEntry env st ent).ent = ent.validate GIT_MODE_FILE (env.new_blob []) ∧
      (processEntry env st ent).repacked = true ∧
      (processEntry env st ent).st.stack =
        appendToTop st.stack (osPathSplit ent.name).2 ent.mode GIT_MODE_FILE
          (env.new_blob [])
          (some { m with hardlink_target := find_hardlink_target env.node_paths ent })) := by
  refine ⟨?_, ?_, ?_, ?_⟩
  · intro content hread hreg
    have h := processEntry_reg_eval env st ent m content hfile hex hsm hnogt hpush hv hmeta
      hsame hreg hread
    refine ⟨by rw [h], by rw [h], ?_⟩
    rw [h, bumpCount_stack]
    simp [IndexEntry.validate]
  · intro msg hread hreg
    have h := processEntry_regfail_eval env st ent m msg hfile hex hsm hnogt hpush hv hmeta
      hsame hreg hread
    refine ⟨by rw [h], by rw [h], ?_, ?_, ?_, ?_⟩
    · rw [h, bumpCount_stack]
      exact updateRoots_stack _ _
    · rw [h, bumpCount_wlog]
      exact updateRoots_wlog _ _
    · rw [h, bumpCount_errors]
    · rw [h, bumpCount_lastskip]
  · intro hnreg hndir hlnk
    have h := processEntry_symlink_eval env st ent m hfile hex hsm hnogt hpush hv hmeta
      hsame hnreg hndir hlnk
    refine ⟨by rw [h], by rw [h], ?_⟩
    rw [h, bumpCount_stack]
    simp [IndexEntry.validate]
  · intro hnreg hndir hnlnk
    have h := processEntry_other_eval env st ent m hfile hex hsm hnogt hpush hv hmeta
      hsame hnreg hndir hnlnk
    refine ⟨by rw [h], by rw [h], ?_⟩
    rw [h, bumpCount_stack]
    simp [IndexEntry.validate]

/-- Claim C9 witness: storing /a/f succeeds (revalidated as the chunked tree
102 and repacked); storing the symlink /a/ln succeeds (revalidated as a
SYMLINK blob, repacked, and appended to the top frame); with a failing reader
the entry, stack and write log are untouched and one error is logged. -/
theorem C9_store_or_fail_witness :
    (processEntry envC7 stC7 entC7).repacked = true ∧
    (processEntry envC7 stC7 entC7).ent = entC7.validate GIT_MODE_TREE 102 ∧
    (processEntry envC9l stC7 entC9l).repacked = true ∧
    (processEntry envC9l stC7 entC9l).ent = entC9l.validate GIT_MODE_SYMLINK 4 ∧
    (processEntry envC9l stC7 entC9l).st.stack =
      appendToTop stC7.stack "ln" 41471 GIT_MODE_SYMLINK 4
        (some { mode := 41471, symlink_target := [116, 103, 116] }) ∧
    (processEntry envC9 stC7 entC7).repacked = false ∧
    (processEntry envC9 stC7 entC7).ent = entC7 ∧
    (processEntry envC9 stC7 entC7).st.stack = stC7.stack ∧
    (processEntry envC9 stC7 entC7).st.wlog = [] ∧
    (processEntry envC9 stC7 entC7).st.errors = ["/a/f" ++ ": " ++ "read failed"] ∧
    (processEntry envC9 stC7 entC7).st.lastskipName = some "/a/f" := by
  have hok := (C9_store_or_fail envC7 stC7 entC7 { mode := 33188, size := 999 } (by decide)
    rfl (by decide) (by decide) (by decide) rfl rfl (by decide)).1 [1, 2, 3, 4, 5] rfl
    (by decide)
  have hlnk := (C9_store_or_fail envC9l stC7 entC9l
    { mode := 41471, symlink_target := [116, 103, 116] } (by decide)
    rfl (by decide) (by decide) (by decide) rfl rfl (by decide)).2.2.1
    (by decide) (by decide) (by decide)
  have hfail := (C9_store_or_fail envC9 stC7 entC7 { mode := 33188, size := 999 } (by decide)
    rfl (by decide) (by decide) (by decide) rfl rfl (by decide)).2.1 "read failed" rfl
    (by decide)
  refine ⟨hok.2.1, ?_, hlnk.2.1, ?_, ?_, hfail.2.1, hfail.1, hfail.2.2.1, hfail.2.2.2.1,
    hfail.2.2.2.2.1, hfail.2.2.2.2.2⟩
  · rw [hok.1]
    decide
  · rw [hlnk.1]
    decide
  · rw [hlnk.2.2]
    decide

theorem popFrame_firstRoot (env : Env) (st : SaveState) (ft : Option Oid)
    (dm : Option Metadata) : (popFrame env st ft dm).1.firstRoot = st.firstRoot := by
  unfold popFrame
  split
  · rfl
  · split <;> rfl

theorem popFrame_rootCollision (env : Env) (st : SaveState) (ft : Option Oid)
    (dm : Option Metadata) : (popFrame env st ft dm).1.rootCollision = st.rootCollision := by
  unfold popFrame
  split
  · rfl
  · split <;> rfl

theorem bumpCount_firstRoot (st : SaveState) (e : IndexEntry) (b : Bool) :
    (bumpCount st e b).firstRoot = st.firstRoot := by
  unfold bumpCount
  split <;> rfl

theorem bumpCount_rootCollision (st : SaveState) (e : IndexEntry) (b : Bool) :
    (bumpCount st e b).rootCollision = st.rootCollision := by
  unfold bumpCount
  split <;> rfl

theorem appendToTop_length (l : List StackDir) (n : String) (m g : Nat) (o : Oid)
    (mt : Option Metadata) : (appendToTop l n m g o mt).length = l.length := by
  unfold appendToTop
  cases hgl : l.getLast? with
  | none => rfl
  | some t =>
    have hne : l ≠ [] := by
      intro h
      rw [h] at hgl
      simp at hgl
    simp only [List.length_append, List.length_dropLast, List.length_singleton]
    have : 0 < l.length := List.length_pos.mpr hne
    omega

theorem popFrame_length_lt (env : Env) (st : SaveState) (ft : Option Oid)
    (dm : Option Metadata) (hne : st.stack ≠ []) :
    ((popFrame env st ft dm).1).stack.length < st.stack.length := by
  have h0 : 0 < st.stack.length := List.length_pos.mpr hne
  unfold popFrame
  cases hgl : st.stack.getLast? with
  | none =>
    cases hs : st.stack with
    | nil => exact absurd hs hne
    | cons x xs =>
      rw [hs] at hgl
      simp at hgl
  | some item =>
    cases ft with
    | some tree =>
      simp only [appendToTop_length, List.length_dropLast]
      omega
    | none =>
      simp only [appendToTop_length, List.length_dropLast]
      omega

theorem popWhileGt_preserves {α : Type} (env : Env) (f : SaveState → α)
    (hf : ∀ st : SaveState, f ((popFrame env st none none).1) = f st) :
    ∀ (n : Nat) (st : SaveState) (names : List String), st.stack.length ≤ n →
      f (popWhileGt env st names) = f st := by
  intro n
  induction n with
  | zero =>
    intro st names hle
    have hnil : st.stack = [] := List.eq_nil_of_length_eq_zero (Nat.le_zero.mp hle)
    rw [popWhileGt]
    simp [hnil, namesGt]
  | succ n ih =>
    intro st names hle
    rw [popWhileGt]
    by_cases h : namesGt (st.stack.map (fun x => x.name)) names = true
    · simp only [h, dite_true]
      have hne : st.stack ≠ [] := by
        intro hnil
        rw [hnil] at h
        simp [namesGt] at h
      have hlt := popFrame_length_lt env st none none hne
      rw [ih _ _ (by omega), hf]
    · simp [h]

theorem popWhileGt_firstRoot (env : Env) (st : SaveState) (names : List String) :
    (popWhileGt env st names).firstRoot = st.firstRoot :=
  popWhileGt_preserves env (fun s => s.firstRoot)
    (fun s => popFrame_firstRoot env s none none) st.stack.length st names (le_refl _)

theorem popWhileGt_rootCollision (env : Env) (st : SaveState) (names : List String) :
    (popWhileGt env st names).rootCollision = st.rootCollision :=
  popWhileGt_preserves env (fun s => s.rootCollision)
    (fun s => popFrame_rootCollision env s none none) st.stack.length st names (le_refl _)

theorem pushComponents_firstRoot (env : Env) (comps : List (String × Option String)) :
    ∀ st : SaveState, (pushComponents env st comps).firstRoot = st.firstRoot := by
  induction comps with
  | nil => intro st; rfl
  | cons c cs ih =>
    intro st
    unfold pushComponents
    rw [List.foldl_cons]
    show (pushComponents env _ cs).firstRoot = _
    rw [ih]
    cases c.2 with
    | none => rfl
    | some p => cases hm : env.meta_from_path p <;> simp [hm]

theorem pushComponents_rootCollision (env : Env) (comps : List (String × Option String)) :
    ∀ st : SaveState, (pushComponents env st comps).rootCollision = st.rootCollision := by
  induction comps with
  | nil => intro st; rfl
  | cons c cs ih =>
    intro st
    unfold pushComponents
    rw [List.foldl_cons]
    show (pushComponents env _ cs).rootCollision = _
    rw [ih]
    cases c.2 with
    | none => rfl
    | some p => cases hm : env.meta_from_path p <;> simp [hm]

theorem handleEntry_roots (env : Env) (st : SaveState) (ent : IndexEntry) (file : String) :
    (handleEntry env st ent file).st.firstRoot = st.firstRoot ∧
    (handleEntry env st ent file).st.rootCollision = st.rootCollision := by
  unfold handleEntry
  dsimp only
  repeat' split
  all_goals simp [bumpCount_firstRoot, bumpCount_rootCollision, popFrame_firstRoot,
    popFrame_rootCollision]

theorem processEntry_roots (env : Env) (st : SaveState) (ent : IndexEntry)
    (hex : ent.ex = true)
    (hsm : ¬(env.smaller ≠ 0 ∧ env.smaller ≤ ent.size)) :
    (processEntry env st ent).st.firstRoot =
      (updateRoots st (env.dirpOf (osPathSplit ent.name).1)).firstRoot ∧
    (processEntry env st ent).st.rootCollision =
      (updateRoots st (env.dirpOf (osPathSplit ent.name).1)).rootCollision := by
  unfold processEntry
  rw [if_neg (by simp [hex]), if_neg hsm]
  constructor
  · rw [(handleEntry_roots _ _ _ _).1, pushComponents_firstRoot, popWhileGt_firstRoot]
  · rw [(handleEntry_roots _ _ _ _).2, pushComponents_rootCollision, popWhileGt_rootCollision]

theorem popToRoot_id (env : Env) (st : SaveState) (h : ¬ 1 < st.stack.length) :
    popToRoot env st = st := by
  rw [popToRoot]
  simp [h]

/-- Claim C8: the first component of the first dirp is remembered in
first_root; a later dirp whose first component differs sets root_collision
(and a matching one leaves it unchanged); and the final root pop closes the
root frame with an empty Metadata override iff root_collision, so the emitted
root sidecar's first record is the empty metadata under a collision and the
root frame's own metadata otherwise. -/
theorem C8_root_collision (env : Env) (st : SaveState) (ent : IndexEntry)
    (hex : ent.ex = true)
    (hsm : ¬(env.smaller ≠ 0 ∧ env.smaller ≤ ent.size)) :
    (st.firstRoot = none → env.dirpOf (osPathSplit ent.name).1 ≠ [] →
      (processEntry env st ent).st.firstRoot =
        (env.dirpOf (osPathSplit ent.name).1).head? ∧
      (processEntry env st ent).st.rootCollision = st.rootCollision) ∧
    (∀ r, st.firstRoot = some r → env.dirpOf (osPathSplit ent.name).1 ≠ [] →
      (processEntry env st ent).st.firstRoot = some r ∧
      (processEntry env st ent).st.rootCollision =
        (st.rootCollision ||
          decide ((env.dirpOf (osPathSplit ent.name).1).head? ≠ some r))) ∧
    (∀ frame, st.stack = [frame] →
      finishSave env st =
        popFrame env st none (if st.rootCollision then some Metadata.empty else none) ∧
      (metaRecords (if st.rootCollision then Metadata.empty else frame.meta)
          (dedupItems "/" frame.items).1).head? =
        some ("", some (if st.rootCollision then Metadata.empty else frame.meta)) ∧
      (finishSave env st).1.wlog =
        st.wlog ++ (buildTree env [] frame
          (if st.rootCollision then some Metadata.empty else none)).2.2) := by
  have hr := processEntry_roots env st ent hex hsm
  refine ⟨?_, ?_, ?_⟩
  · intro h0 hne
    cases hd : (env.dirpOf (osPathSplit ent.name).1).head? with
    | none => exact absurd (List.head?_eq_none_iff.mp hd) hne
    | some c =>
      constructor
      · rw [hr.1]
        unfold updateRoots
        rw [h0, hd]
      · rw [hr.2]
        unfold updateRoots
        rw [h0, hd]
  · intro r h0 hne
    cases hd : (env.dirpOf (osPathSplit ent.name).1).head? with
    | none => exact absurd (List.head?_eq_none_iff.mp hd) hne
    | some c =>
      constructor
      · rw [hr.1]
        unfold updateRoots
        rw [h0, hd]
        by_cases hcr : c = r
        · subst hcr
          simp [h0]
        · simp [hcr, h0]
      · rw [hr.2]
        unfold updateRoots
        rw [h0, hd]
        by_cases hcr : c = r
        · subst hcr
          simp
        · simp [hcr]
  · intro frame hst
    have hlen : ¬ 1 < st.stack.length := by
      rw [hst]
      simp
    have hfin : finishSave env st =
        popFrame env st none (if st.rootCollision then some Metadata.empty else none) := by
      unfold finishSave
      rw [popToRoot_id env st hlen]
    refine ⟨hfin, ?_, ?_⟩
    · rw [metaRecords_eq_cons]
      rfl
    · rw [hfin, popFrame_build env st _ [] frame (by rw [hst]; rfl)]
      simp

/-- Claim C8 witness: with first_root = (x, -) remembered, a dirp rooted at
the empty name sets the collision flag; the final pop of a collided root uses
the empty metadata as its sidecar head, and a collision-free root keeps its
own metadata (size 33). -/
theorem C8_root_collision_witness :
    (processEntry envC3 stC8 entC6).st.firstRoot = some ("x", none) ∧
    (processEntry envC3 stC8 entC6).st.rootCollision = true ∧
    finishSave env0 stC8f = popFrame env0 stC8f none (some Metadata.empty) ∧
    (metaRecords Metadata.empty
        (dedupItems "/" [⟨"a", 33188, 33188, 1, some { size := 7 }⟩]).1).head? =
      some ("", some Metadata.empty) ∧
    finishSave env0 stC8n = popFrame env0 stC8n none none ∧
    (metaRecords { size := 33 }
        (dedupItems "/" [⟨"a", 33188, 33188, 1, some { size := 7 }⟩]).1).head? =
      some ("", some { size := 33 }) := by
  have h1 := (C8_root_collision envC3 stC8 entC6 rfl (by decide)).2.1 ("x", none) rfl
    (by decide)
  have h2 := (C8_root_collision env0 stC8f entC6 rfl (by decide)).2.2
    ⟨"", { size := 33 }, [⟨"a", 33188, 33188, 1, some { size := 7 }⟩]⟩ rfl
  have h3 := (C8_root_collision env0 stC8n entC6 rfl (by decide)).2.2
    ⟨"", { size := 33 }, [⟨"a", 33188, 33188, 1, some { size := 7 }⟩]⟩ rfl
  have hc2 : stC8f.rootCollision = true := rfl
  have hc3 : stC8n.rootCollision = false := rfl
  rw [hc2] at h2
  rw [hc3] at h3
  simp at h2 h3
  refine ⟨h1.1, ?_, h2.1, h2.2.1, h3.1, h3.2.1⟩
  rw [h1.2]
  decide
